import Mathlib

/-!
Verification of the editorconfig-lint core: a shallow embedding of
`src/reader.rs` (the per-charset character readers), `src/check.rs` (the
line-oriented check engine) and the `Config` record from `src/config.rs`.

Bytes are modelled as `Nat` (values `0..255` in any real input); a byte
source is a `List Nat` consumed from the front.  A Rust
`read(&mut buf[a..b])` on such a source fills the slice with
`min (b - a) (remaining)` bytes, which is modelled with `List.take` /
`List.drop`.  Fallible I/O never fails in the model (reading from a list
always succeeds), and the one panic reachable from the public `check`
entry point (the `todo!()` for `Charset::Latin1` in
`CharacterReader::new`) is modelled by `check` returning `none`.
-/

set_option autoImplicit false

namespace EcLint

/-! ## Data model: `src/config.rs` -/

/-- Mirrors `enum IndentStyle { Space, Tab }`. -/
inductive IndentStyle
  | Space
  | Tab
deriving DecidableEq, Repr

/-- Mirrors `enum LineEnding { Lf, Crlf, Cr }`. -/
inductive LineEnding
  | Lf
  | Crlf
  | Cr
deriving DecidableEq, Repr

/-- Mirrors `enum Charset { Latin1, Utf8, Utf8WithBom, Utf16BigEndian, Utf16LittleEndian }`. -/
inductive Charset
  | Latin1
  | Utf8
  | Utf8WithBom
  | Utf16BigEndian
  | Utf16LittleEndian
deriving DecidableEq, Repr

/-- Mirrors `struct Config` from `src/config.rs` (every lint option is optional). -/
structure Config where
  indent_style : Option IndentStyle
  indent_size : Option Nat
  tab_width : Option Nat
  end_of_line : Option LineEnding
  charset : Option Charset
  trim_trailing_whitespace : Option Bool
  insert_final_newline : Option Bool
deriving DecidableEq, Repr

/-! ## Data model: `src/reader.rs` -/

/-- Mirrors `enum NewLineChar { Cr, Lf }`. -/
inductive NewLineChar
  | Cr
  | Lf
deriving DecidableEq, Repr

/-- Mirrors `impl PartialEq<LineEnding> for NewLineChar` (used as `new_line != v`
in `check_end_of_newline`). -/
def newLineEqLineEnding : NewLineChar → LineEnding → Bool
  | NewLineChar.Cr, LineEnding.Cr => true
  | NewLineChar.Lf, LineEnding.Lf => true
  | _, _ => false

/-- Mirrors `enum IndentChar { Space, Tab }`. -/
inductive IndentChar
  | Space
  | Tab
deriving DecidableEq, Repr

/-- Mirrors `struct CharByteArray { len: u8, buffer: [u8; 4] }`. -/
structure CharByteArray where
  len : Nat
  buffer : List Nat
deriving DecidableEq, Repr

/-- Mirrors `impl From<&[u8]> for CharByteArray`: the buffer is zero-initialized
and the first `len` bytes are copied in, so shorter inputs are zero-padded to
four bytes. -/
def CharByteArray.ofBytes (b : List Nat) : CharByteArray :=
  ⟨b.length, (b ++ [0, 0, 0, 0]).take 4⟩

/-- Mirrors `enum Character { Bom, Invalid(..), NewLine(..), Indent(..), Valid(..) }`. -/
inductive Character
  | Bom
  | Invalid (bytes : CharByteArray)
  | NewLine (c : NewLineChar)
  | Indent (c : IndentChar)
  | Valid (bytes : CharByteArray)
deriving DecidableEq, Repr

/-! ## The five readers

Each reader's `next` is a pure function on the remaining byte list.  It
returns `none` at end of input (a 0-byte read), otherwise the token and
the bytes left over.
-/

/-- Continuation-byte test used by `std::str::from_utf8` validation. -/
def utf8Cont (x : Nat) : Bool := decide (0x80 ≤ x ∧ x ≤ 0xBF)

/-- Validity of a complete 2/3/4-byte UTF-8 sequence, following
`std::str::from_utf8` (overlong forms, surrogates and values above
U+10FFFF are rejected via the second-byte ranges). -/
def utf8ValidSeq : List Nat → Bool
  | [a, b] => decide (0xC2 ≤ a ∧ a ≤ 0xDF) && utf8Cont b
  | [a, b, c] =>
      ((decide (a = 0xE0) && decide (0xA0 ≤ b ∧ b ≤ 0xBF)) ||
       (decide (0xE1 ≤ a ∧ a ≤ 0xEC) && utf8Cont b) ||
       (decide (a = 0xED) && decide (0x80 ≤ b ∧ b ≤ 0x9F)) ||
       (decide (0xEE ≤ a ∧ a ≤ 0xEF) && utf8Cont b)) && utf8Cont c
  | [a, b, c, d] =>
      ((decide (a = 0xF0) && decide (0x90 ≤ b ∧ b ≤ 0xBF)) ||
       (decide (0xF1 ≤ a ∧ a ≤ 0xF3) && utf8Cont b) ||
       (decide (a = 0xF4) && decide (0x80 ≤ b ∧ b ≤ 0x8F))) && utf8Cont c && utf8Cont d
  | _ => false

/-- The multi-byte tail of `Utf8Reader::next` (`// read more chars`).  The
source reads the continuation bytes into `buf[1..n]` — a slice of length
`n - 1`, so `len` (the number of bytes actually read) is at most `n - 1` —
and then tests `len == n`.  That comparison is kept verbatim here: as in
the source, the decode branch is unreachable and the function always
falls through to `Invalid(buf[0..len])`.  The comparison of the decoded
string with `"\u{FEFF}"` is rendered as a comparison of the (valid)
sequence with its unique encoding `EF BB BF`. -/
def utf8Tail (b n : Nat) (rest : List Nat) : Option (Character × List Nat) :=
  let cont := rest.take (n - 1)
  let len := cont.length
  let remaining := rest.drop (n - 1)
  if len = n then
    if utf8ValidSeq (b :: cont) then
      if b :: cont = [0xEF, 0xBB, 0xBF] then some (Character.Bom, remaining)
      else some (Character.Valid (CharByteArray.ofBytes (b :: cont)), remaining)
    else some (Character.Invalid (CharByteArray.ofBytes ((b :: cont).take len)), remaining)
  else some (Character.Invalid (CharByteArray.ofBytes ((b :: cont).take len)), remaining)

/-- Mirrors `Utf8Reader::next`. -/
def utf8Next : List Nat → Option (Character × List Nat)
  | [] => none
  | b :: rest =>
    if b = 0x0D then some (Character.NewLine NewLineChar.Cr, rest)
    else if b = 0x0A then some (Character.NewLine NewLineChar.Lf, rest)
    else if b = 0x20 then some (Character.Indent IndentChar.Space, rest)
    else if b = 0x09 then some (Character.Indent IndentChar.Tab, rest)
    else if b < 0x80 then some (Character.Valid (CharByteArray.ofBytes [b]), rest)
    else if b &&& 0xF8 = 0xF0 then utf8Tail b 4 rest
    else if b &&& 0xF0 = 0xE0 then utf8Tail b 3 rest
    else if b &&& 0xE0 = 0xC0 then utf8Tail b 2 rest
    else some (Character.Invalid (CharByteArray.ofBytes [b]), rest)

/-- Mirrors `Latin1Reader::next`. -/
def latin1Next : List Nat → Option (Character × List Nat)
  | [] => none
  | b :: rest =>
    if b = 0x0D then some (Character.NewLine NewLineChar.Cr, rest)
    else if b = 0x0A then some (Character.NewLine NewLineChar.Lf, rest)
    else if b = 0x20 then some (Character.Indent IndentChar.Space, rest)
    else if b = 0x09 then some (Character.Indent IndentChar.Tab, rest)
    else if ¬ (0x7F ≤ b ∧ b ≤ 0xA0) then some (Character.Valid (CharByteArray.ofBytes [b]), rest)
    else some (Character.Invalid (CharByteArray.ofBytes [b]), rest)

/-- Mirrors `Utf16LeReader::next`.  When the low byte of the code unit is a
high-surrogate byte the reader pulls two more bytes into `buf[2..4]` and
tests `buf[3]`; the zero-initialized buffer makes `buf[3] = 0` when fewer
than two bytes arrive.  The catch-all arm returns `Valid(buf[0..1])` —
one byte — exactly as the source does. -/
def utf16leNext : List Nat → Option (Character × List Nat)
  | [] => none
  | [b] => some (Character.Invalid (CharByteArray.ofBytes [b]), [])
  | b0 :: b1 :: rest =>
    if b0 = 0x0D ∧ b1 = 0x00 then some (Character.NewLine NewLineChar.Cr, rest)
    else if b0 = 0x0A ∧ b1 = 0x00 then some (Character.NewLine NewLineChar.Lf, rest)
    else if b0 = 0x20 ∧ b1 = 0x00 then some (Character.Indent IndentChar.Space, rest)
    else if b0 = 0x09 ∧ b1 = 0x00 then some (Character.Indent IndentChar.Tab, rest)
    else if b0 = 0xFF ∧ b1 = 0xFE then some (Character.Bom, rest)
    else if 0xD8 ≤ b1 ∧ b1 ≤ 0xDB then
      let cont := rest.take 2
      let len := cont.length
      let remaining := rest.drop 2
      if len = 2 ∧ (0xDC ≤ cont.getD 1 0 ∧ cont.getD 1 0 ≤ 0xDF) then
        some (Character.Valid (CharByteArray.ofBytes ([b0, b1] ++ cont)), remaining)
      else
        some (Character.Invalid (CharByteArray.ofBytes ([b0, b1] ++ cont)), remaining)
    else some (Character.Valid (CharByteArray.ofBytes [b0]), rest)

/-- Mirrors `Utf16BeReader::next` (byte-swapped specials; surrogate
detection on the first byte; the low-surrogate test is on `buf[3]`, as in
the source).  The catch-all arm again returns `Valid(buf[0..1])`. -/
def utf16beNext : List Nat → Option (Character × List Nat)
  | [] => none
  | [b] => some (Character.Invalid (CharByteArray.ofBytes [b]), [])
  | b0 :: b1 :: rest =>
    if b0 = 0x00 ∧ b1 = 0x0D then some (Character.NewLine NewLineChar.Cr, rest)
    else if b0 = 0x00 ∧ b1 = 0x0A then some (Character.NewLine NewLineChar.Lf, rest)
    else if b0 = 0x00 ∧ b1 = 0x20 then some (Character.Indent IndentChar.Space, rest)
    else if b0 = 0x00 ∧ b1 = 0x09 then some (Character.Indent IndentChar.Tab, rest)
    else if b0 = 0xFE ∧ b1 = 0xFF then some (Character.Bom, rest)
    else if 0xD8 ≤ b0 ∧ b0 ≤ 0xDB then
      let cont := rest.take 2
      let len := cont.length
      let remaining := rest.drop 2
      if len = 2 ∧ (0xDC ≤ cont.getD 1 0 ∧ cont.getD 1 0 ≤ 0xDF) then
        some (Character.Valid (CharByteArray.ofBytes ([b0, b1] ++ cont)), remaining)
      else
        some (Character.Invalid (CharByteArray.ofBytes ([b0, b1] ++ cont)), remaining)
    else some (Character.Valid (CharByteArray.ofBytes [b0]), rest)

/-- Mirrors `UncheckedEncodingReader::next`. -/
def uncheckedNext : List Nat → Option (Character × List Nat)
  | [] => none
  | b :: rest =>
    if b = 0x0D then some (Character.NewLine NewLineChar.Cr, rest)
    else if b = 0x0A then some (Character.NewLine NewLineChar.Lf, rest)
    else if b = 0x20 then some (Character.Indent IndentChar.Space, rest)
    else if b = 0x09 then some (Character.Indent IndentChar.Tab, rest)
    else some (Character.Valid (CharByteArray.ofBytes [b]), rest)

/-- The reader variant selected for a charset, as in `enum CharacterReader` /
`CharacterReader::new` — except that the `todo!()` panic for `Latin1` is
handled in `check` itself (the `Latin1Reader` exists in the source but is
unreachable from `CharacterReader::new`). -/
def readerFor : Option Charset → List Nat → Option (Character × List Nat)
  | some Charset.Latin1 => latin1Next
  | some Charset.Utf8 => utf8Next
  | some Charset.Utf8WithBom => utf8Next
  | some Charset.Utf16BigEndian => utf16beNext
  | some Charset.Utf16LittleEndian => utf16leNext
  | none => uncheckedNext

/-- Repeatedly pull tokens from a reader.  `fuel` bounds the number of
pulls; every reader consumes at least one byte per token, so
`input.length + 1` pulls always reach end of input (see the
`…Next_length` lemmas below). -/
def tokenizeAux (next : List Nat → Option (Character × List Nat)) :
    Nat → List Nat → List Character
  | 0, _ => []
  | fuel + 1, input =>
    match next input with
    | none => []
    | some (c, rest) => c :: tokenizeAux next fuel rest

/-- The full token stream a charset's reader produces from a byte list. -/
def tokenize (cs : Option Charset) (input : List Nat) : List Character :=
  tokenizeAux (readerFor cs) (input.length + 1) input

/-! ## Check engine: `src/check.rs` -/

/-- Mirrors `enum Reason` from `src/check.rs`. -/
inductive Reason
  | IndentStyle
  | IndentSizeMismatch (observed : Nat)
  | EndOfLineMismatch
  | TrailingWhiteSpaces
  | NoFinalNewline
  | BomNotFound
  | InvalidCharacter
deriving DecidableEq, Repr

/-- Mirrors `struct Diagnosis { line, range: (usize, usize), reason }`. -/
structure Diagnosis where
  line : Nat
  range : Nat × Nat
  reason : Reason
deriving DecidableEq, Repr

/-- Mirrors the private `enum State` of the engine. -/
inductive State
  | Indent (len : Nat) (style_error : Bool)
  | NonWhitespace
  | NonIndentWhitespace (len : Nat)
deriving DecidableEq, Repr

/-- Mirrors `struct CheckState` (minus the `config` reference, which is
passed to each function explicitly). -/
structure CheckState where
  line : Nat
  col : Nat
  state : State
  prev_newline : Option NewLineChar
  diagnosis : List Diagnosis
deriving DecidableEq, Repr

/-- Mirrors `CheckState::push_diagnosis` (a `Vec::push`, so append at the
end). -/
def push_diagnosis (s : CheckState) (d : Diagnosis) : CheckState :=
  { s with diagnosis := s.diagnosis ++ [d] }

/-- Mirrors `CheckState::move_next_line`. -/
def move_next_line (s : CheckState) : CheckState :=
  { s with line := s.line + 1, col := 1 }

/-- Mirrors `CheckState::check_end_of_newline`: take the pending newline if
any, report an `EndOfLineMismatch` when it disagrees with the configured
`end_of_line`, and advance the line. -/
def check_end_of_newline (cfg : Config) (s : CheckState) : CheckState :=
  match s.prev_newline with
  | none => s
  | some new_line =>
    let s1 : CheckState := { s with prev_newline := none }
    let s2 : CheckState :=
      if (cfg.end_of_line.map fun v => !newLineEqLineEnding new_line v).getD false = true then
        push_diagnosis s1 ⟨s1.line, (s1.col - 1, s1.col), Reason.EndOfLineMismatch⟩
      else s1
    move_next_line s2

/-- Mirrors `CheckState::check_end_of_indent`. -/
def check_end_of_indent (cfg : Config) (s : CheckState) (len : Nat) (style_error : Bool) :
    CheckState :=
  if style_error then
    push_diagnosis s ⟨s.line, (s.col - len, s.col), Reason.IndentStyle⟩
  else
    match cfg.indent_size with
    | some size =>
      if len % size ≠ 0 then
        push_diagnosis s ⟨s.line, (s.col - len, s.col), Reason.IndentSizeMismatch len⟩
      else s
    | none => s

/-- The `Character::Indent` arm of `CheckState::check_ch`. -/
def checkChIndent (cfg : Config) (s : CheckState) (indent : IndentChar) : CheckState :=
  let s1 : CheckState :=
    match s.state with
    | State.NonWhitespace => { s with state := State.NonIndentWhitespace 1 }
    | State.Indent len style_error =>
      let s2 := if len = 0 then check_end_of_newline cfg s else s
      let se : Bool :=
        match indent, cfg.indent_style with
        | IndentChar.Space, some IndentStyle.Tab => true
        | IndentChar.Tab, some IndentStyle.Space => true
        | _, _ => style_error
      { s2 with state := State.Indent (len + 1) se }
    | State.NonIndentWhitespace _ => s
  { s1 with col := s1.col + 1, prev_newline := none }

/-- First half of the `Character::NewLine` arm of `CheckState::check_ch`:
finalize a style-errored indent run, report trailing whitespace, and
reset the line state to a fresh `Indent{len: 0, style_error: false}`.
The pushes leave `line`, `col` and `prev_newline` untouched, so they read
those fields from `s` directly — exactly the values the source reads from
`self` at the same points. -/
def checkChNewLineA (cfg : Config) (s : CheckState) : CheckState :=
  let trailing : Option Nat :=
    match s.state with
    | State.NonIndentWhitespace len => some len
    | State.Indent len _ => some len
    | State.NonWhitespace => none
  let s1 : CheckState :=
    match s.state with
    | State.Indent len style_error =>
      if style_error then
        push_diagnosis s ⟨s.line, (s.col - len, s.col), Reason.IndentStyle⟩
      else s
    | _ => s
  let s2 : CheckState :=
    match trailing with
    | some len =>
      if len ≠ 0 ∧ cfg.trim_trailing_whitespace.getD false = true then
        push_diagnosis s1 ⟨s.line, (s.col - len, s.col), Reason.TrailingWhiteSpaces⟩
      else s1
    | none => s1
  { s2 with state := State.Indent 0 false }

/-- The `Character::NewLine` arm of `CheckState::check_ch`: the
finalization above, then resolution of the newline against the pending
`prev_newline` (which the finalization does not modify). -/
def checkChNewLine (cfg : Config) (s : CheckState) (newline : NewLineChar) : CheckState :=
  let s3 : CheckState := checkChNewLineA cfg s
  match newline, s.prev_newline with
  | nl, none => { s3 with prev_newline := some nl }
  | NewLineChar.Lf, some NewLineChar.Lf =>
    let s4 :=
      if (cfg.end_of_line.map fun v => decide (v ≠ LineEnding.Lf)).getD false = true then
        push_diagnosis s3 ⟨s.line, (s.col - 1, s.col), Reason.EndOfLineMismatch⟩
      else s3
    move_next_line { s4 with prev_newline := some NewLineChar.Lf }
  | NewLineChar.Lf, some NewLineChar.Cr =>
    let s4 :=
      if (cfg.end_of_line.map fun v => decide (v ≠ LineEnding.Crlf)).getD false = true then
        push_diagnosis s3 ⟨s.line, (s.col - 1, s.col), Reason.EndOfLineMismatch⟩
      else s3
    move_next_line { s4 with prev_newline := none }
  | NewLineChar.Cr, some NewLineChar.Lf =>
    let s4 := push_diagnosis s3 ⟨s.line, (s.col - 1, s.col), Reason.EndOfLineMismatch⟩
    move_next_line { s4 with prev_newline := some NewLineChar.Cr }
  | NewLineChar.Cr, some NewLineChar.Cr =>
    let s4 :=
      if (cfg.end_of_line.map fun v => decide (v ≠ LineEnding.Cr)).getD false = true then
        push_diagnosis s3 ⟨s.line, (s.col - 1, s.col), Reason.EndOfLineMismatch⟩
      else s3
    move_next_line { s4 with prev_newline := some NewLineChar.Cr }

/-- The `Character::Valid` arm of `CheckState::check_ch`. -/
def checkChValid (cfg : Config) (s : CheckState) : CheckState :=
  let s1 : CheckState :=
    match s.state with
    | State.Indent len style_error =>
      check_end_of_indent cfg (check_end_of_newline cfg s) len style_error
    | _ => s
  { s1 with state := State.NonWhitespace, col := s1.col + 1 }

/-- The `Character::Invalid | Character::Bom` arm of `CheckState::check_ch`. -/
def checkChInvalid (cfg : Config) (s : CheckState) : CheckState :=
  let s1 : CheckState :=
    match s.state with
    | State.Indent len style_error =>
      check_end_of_indent cfg (check_end_of_newline cfg s) len style_error
    | _ => s
  let s2 := push_diagnosis s1 ⟨s1.line, (s1.col - 1, s1.col), Reason.InvalidCharacter⟩
  { s2 with state := State.NonWhitespace, col := s2.col + 1 }

/-- Mirrors `CheckState::check_ch`, dispatching on the token kind. -/
def check_ch (cfg : Config) (s : CheckState) (c : Character) : CheckState :=
  match c with
  | Character.Indent indent => checkChIndent cfg s indent
  | Character.NewLine newline => checkChNewLine cfg s newline
  | Character.Valid _ => checkChValid cfg s
  | Character.Invalid _ => checkChInvalid cfg s
  | Character.Bom => checkChInvalid cfg s

/-- The initial `CheckState` built at the top of `check`. -/
def initState : CheckState :=
  ⟨1, 1, State.Indent 0 false, none, []⟩

/-- The charset-specific BOM preamble of `check` plus the main
`while let Some(ch) = reader.next()?` loop, phrased over the reader's
token stream: the preamble inspects (and consumes) the first token, the
loop folds `check_ch` over the remainder.  Because the reader is a pure
function of the remaining bytes, running it to a token list first and
folding afterwards computes the same diagnoses as the interleaved Rust
loop. -/
def checkTokens (cfg : Config) (toks : List Character) : List Diagnosis :=
  let start : CheckState × List Character :=
    match cfg.charset with
    | some Charset.Utf8WithBom =>
      match toks with
      | [] => (push_diagnosis initState ⟨1, (0, 0), Reason.BomNotFound⟩, [])
      | Character.Bom :: rest => (initState, rest)
      | c :: rest => (check_ch cfg (push_diagnosis initState ⟨1, (0, 0), Reason.BomNotFound⟩) c, rest)
    | some Charset.Utf16BigEndian =>
      match toks with
      | [] => (initState, [])
      | Character.Bom :: rest => (initState, rest)
      | c :: rest => (check_ch cfg initState c, rest)
    | some Charset.Utf16LittleEndian =>
      match toks with
      | [] => (initState, [])
      | Character.Bom :: rest => (initState, rest)
      | c :: rest => (check_ch cfg initState c, rest)
    | _ => (initState, toks)
  (start.2.foldl (check_ch cfg) start.1).diagnosis

/-- Mirrors `pub fn check`: build the reader for the configured charset
(`CharacterReader::new` — whose `Latin1` arm is `todo!()` and panics,
modelled as `none`), run the BOM preamble, then drive the reader to
exhaustion feeding every token to `check_ch`. -/
def check (input : List Nat) (cfg : Config) : Option (List Diagnosis) :=
  match cfg.charset with
  | some Charset.Latin1 => none
  | _ => some (checkTokens cfg (tokenize cfg.charset input))

/-! ## Predicates used to state the claims -/

/-- Tokens that hit the `Character::Invalid | Character::Bom` arm of
`check_ch`. -/
def isInvalidOrBom : Character → Bool
  | Character.Invalid _ => true
  | Character.Bom => true
  | _ => false

/-- The reason is `IndentStyle`. -/
def isIndentStyleReason : Reason → Bool
  | Reason.IndentStyle => true
  | _ => false

/-- The reason is `IndentSizeMismatch _`. -/
def isIndentSizeReason : Reason → Bool
  | Reason.IndentSizeMismatch _ => true
  | _ => false

/-- Line numbers of the diagnoses whose reason satisfies `p`, in emission
order. -/
def reasonLines (p : Reason → Bool) (ds : List Diagnosis) : List Nat :=
  (ds.filter fun d => p d.reason).map fun d => d.line

/-- Every line terminator in a token stream is exactly the given
`end_of_line` sequence: under `lf` no `Cr` token occurs, under `cr` no
`Lf` token occurs, and under `crlf` the newline tokens occur precisely as
adjacent `Cr`-then-`Lf` pairs. -/
def eolTerminatorsOk : LineEnding → List Character → Bool
  | _, [] => true
  | LineEnding.Lf, Character.NewLine NewLineChar.Cr :: _ => false
  | LineEnding.Cr, Character.NewLine NewLineChar.Lf :: _ => false
  | LineEnding.Crlf, Character.NewLine NewLineChar.Cr :: Character.NewLine NewLineChar.Lf :: rest =>
      eolTerminatorsOk LineEnding.Crlf rest
  | LineEnding.Crlf, Character.NewLine _ :: _ => false
  | eol, _ :: rest => eolTerminatorsOk eol rest

/-- Invariant carried through the main loop for the end-of-line claim:
the pending newline is compatible with the configured `end_of_line` and
with the tokens still to come. -/
def eolArmed : LineEnding → Option NewLineChar → List Character → Prop
  | LineEnding.Lf, prev, ts =>
      prev ≠ some NewLineChar.Cr ∧ eolTerminatorsOk LineEnding.Lf ts = true
  | LineEnding.Cr, prev, ts =>
      prev ≠ some NewLineChar.Lf ∧ eolTerminatorsOk LineEnding.Cr ts = true
  | LineEnding.Crlf, prev, ts =>
      prev ≠ some NewLineChar.Lf ∧
      match prev with
      | some NewLineChar.Cr =>
          ∃ ts2, ts = Character.NewLine NewLineChar.Lf :: ts2 ∧
            eolTerminatorsOk LineEnding.Crlf ts2 = true
      | _ => eolTerminatorsOk LineEnding.Crlf ts = true

/-- Bound on previously emitted indent-run diagnoses relative to the
current engine position: strict below the current line while a fresh
indent run can still accumulate on it (state `Indent` with no pending
newline), otherwise at most the current line. -/
def stateBound (s : CheckState) (l : Nat) : Prop :=
  match s.state, s.prev_newline with
  | State.Indent _ _, none => l < s.line
  | _, _ => l ≤ s.line

/-- Invariant for the indent-run claim: the `IndentStyle` lines and the
`IndentSizeMismatch` lines are each strictly increasing, both are bounded
by the current position, a non-empty indent run has no pending newline,
and a latched style error implies a non-empty run. -/
def indentInv (s : CheckState) : Prop :=
  (reasonLines isIndentStyleReason s.diagnosis).Pairwise (· < ·) ∧
  (reasonLines isIndentSizeReason s.diagnosis).Pairwise (· < ·) ∧
  (∀ l ∈ reasonLines isIndentStyleReason s.diagnosis, stateBound s l) ∧
  (∀ l ∈ reasonLines isIndentSizeReason s.diagnosis, stateBound s l) ∧
  (∀ len se, s.state = State.Indent len se → 0 < len → s.prev_newline = none) ∧
  (∀ len, s.state = State.Indent len true → 0 < len)

/-- Config with every option absent. -/
def cfgEmpty : Config := ⟨none, none, none, none, none, none, none⟩

/-- Config selecting UTF-8 with `end_of_line = lf`. -/
def cfgUtf8Lf : Config :=
  ⟨none, none, none, some LineEnding.Lf, some Charset.Utf8, none, none⟩

/-- Config selecting UTF-8 with a required BOM. -/
def cfgUtf8Bom : Config :=
  ⟨none, none, none, none, some Charset.Utf8WithBom, none, none⟩

/-- Config selecting plain UTF-8 and nothing else. -/
def cfgUtf8 : Config :=
  ⟨none, none, none, none, some Charset.Utf8, none, none⟩

/-- Config selecting Latin-1 and nothing else. -/
def cfgLatin1 : Config :=
  ⟨none, none, none, none, some Charset.Latin1, none, none⟩

/-- Config with `end_of_line = lf`, `trim_trailing_whitespace = true` and
no charset. -/
def cfgLfTrim : Config :=
  ⟨none, none, none, some LineEnding.Lf, none, some true, none⟩

/-- Config with `indent_style = space` and nothing else. -/
def cfgSpace : Config :=
  ⟨some IndentStyle.Space, none, none, none, none, none, none⟩

/-- The reasons `check_ch` can emit while consuming token `c`, together
with the shape facts every emitted diagnosis satisfies.  `NoFinalNewline`
is absent, and `InvalidCharacter` occurs only for `Invalid`/`Bom`
tokens. -/
def allowedReason (c : Character) (r : Reason) : Prop :=
  r = Reason.EndOfLineMismatch ∨ r = Reason.IndentStyle ∨
    (∃ n, r = Reason.IndentSizeMismatch n) ∨ r = Reason.TrailingWhiteSpaces ∨
    (r = Reason.InvalidCharacter ∧ isInvalidOrBom c = true)

/-! ## Theorems -/

theorem utf8Next_length {input : List Nat} {c : Character} {rest : List Nat}
    (h : utf8Next input = some (c, rest)) : rest.length < input.length := by
  cases input with
  | nil => cases h
  | cons b bs =>
    rw [utf8Next] at h
    repeat' split at h
    all_goals try rw [utf8Tail] at h
    all_goals repeat' split at h
    all_goals cases h
    all_goals simp only [List.length_drop, List.length_cons]
    all_goals omega

theorem latin1Next_length {input : List Nat} {c : Character} {rest : List Nat}
    (h : latin1Next input = some (c, rest)) : rest.length < input.length := by
  cases input with
  | nil => cases h
  | cons b bs =>
    rw [latin1Next] at h
    repeat' split at h
    all_goals cases h
    all_goals simp

theorem utf16leNext_length {input : List Nat} {c : Character} {rest : List Nat}
    (h : utf16leNext input = some (c, rest)) : rest.length < input.length := by
  cases input with
  | nil => cases h
  | cons b0 tail =>
    cases tail with
    | nil =>
      rw [utf16leNext] at h
      cases h
      simp
    | cons b1 bs =>
      rw [utf16leNext] at h
      repeat' split at h
      all_goals try dsimp only at h
      all_goals repeat' split at h
      all_goals cases h
      all_goals simp only [List.length_drop, List.length_cons]
      all_goals omega

theorem utf16beNext_length {input : List Nat} {c : Character} {rest : List Nat}
    (h : utf16beNext input = some (c, rest)) : rest.length < input.length := by
  cases input with
  | nil => cases h
  | cons b0 tail =>
    cases tail with
    | nil =>
      rw [utf16beNext] at h
      cases h
      simp
    | cons b1 bs =>
      rw [utf16beNext] at h
      repeat' split at h
      all_goals try dsimp only at h
      all_goals repeat' split at h
      all_goals cases h
      all_goals simp only [List.length_drop, List.length_cons]
      all_goals omega

theorem uncheckedNext_length {input : List Nat} {c : Character} {rest : List Nat}
    (h : uncheckedNext input = some (c, rest)) : rest.length < input.length := by
  cases input with
  | nil => cases h
  | cons b bs =>
    rw [uncheckedNext] at h
    repeat' split at h
    all_goals cases h
    all_goals simp

theorem mem_push_diagnosis {s : CheckState} {d x : Diagnosis}
    (h : x ∈ (push_diagnosis s d).diagnosis) : x ∈ s.diagnosis ∨ x = d := by
  simpa [push_diagnosis] using h

theorem check_end_of_newline_mem {cfg : Config} {s : CheckState} {x : Diagnosis}
    (h : x ∈ (check_end_of_newline cfg s).diagnosis) :
    x ∈ s.diagnosis ∨ x = ⟨s.line, (s.col - 1, s.col), Reason.EndOfLineMismatch⟩ := by
  unfold check_end_of_newline at h
  cases hp : s.prev_newline with
  | none => rw [hp] at h; exact Or.inl h
  | some nl =>
    rw [hp] at h
    dsimp only at h
    split at h
    · simpa [move_next_line, push_diagnosis] using h
    · exact Or.inl (by simpa [move_next_line] using h)

theorem check_end_of_indent_mem {cfg : Config} {s : CheckState} {len : Nat}
    {se : Bool} {x : Diagnosis}
    (h : x ∈ (check_end_of_indent cfg s len se).diagnosis) :
    x ∈ s.diagnosis ∨ x = ⟨s.line, (s.col - len, s.col), Reason.IndentStyle⟩ ∨
      x = ⟨s.line, (s.col - len, s.col), Reason.IndentSizeMismatch len⟩ := by
  unfold check_end_of_indent at h
  split at h
  · rcases mem_push_diagnosis h with h1 | h1
    · exact Or.inl h1
    · exact Or.inr (Or.inl h1)
  · split at h
    · split at h
      · rcases mem_push_diagnosis h with h1 | h1
        · exact Or.inl h1
        · exact Or.inr (Or.inr h1)
      · exact Or.inl h
    · exact Or.inl h

theorem checkChIndent_mem {cfg : Config} {s : CheckState} {indent : IndentChar} {x : Diagnosis}
    (h : x ∈ (checkChIndent cfg s indent).diagnosis) :
    x ∈ s.diagnosis ∨ x = ⟨s.line, (s.col - 1, s.col), Reason.EndOfLineMismatch⟩ := by
  unfold checkChIndent at h
  cases hs : s.state with
  | NonWhitespace => rw [hs] at h; exact Or.inl h
  | NonIndentWhitespace len => rw [hs] at h; exact Or.inl h
  | Indent len se =>
    rw [hs] at h
    dsimp only at h
    split at h
    · exact check_end_of_newline_mem h
    · exact Or.inl h

theorem checkChNewLineA_mem {cfg : Config} {s : CheckState} {x : Diagnosis}
    (h : x ∈ (checkChNewLineA cfg s).diagnosis) :
    x ∈ s.diagnosis ∨
      (∃ b, x = ⟨s.line, (s.col - b, s.col), Reason.IndentStyle⟩) ∨
      (∃ b, x = ⟨s.line, (s.col - b, s.col), Reason.TrailingWhiteSpaces⟩) := by
  unfold checkChNewLineA at h
  cases hs : s.state with
  | NonWhitespace =>
    rw [hs] at h
    exact Or.inl h
  | NonIndentWhitespace len =>
    rw [hs] at h
    dsimp only at h
    split at h
    · rcases mem_push_diagnosis h with h1 | h1
      · exact Or.inl h1
      · exact Or.inr (Or.inr ⟨_, h1⟩)
    · exact Or.inl h
  | Indent len se =>
    rw [hs] at h
    dsimp only at h
    split at h
    · rcases mem_push_diagnosis h with h1 | h1
      · split at h1
        · rcases mem_push_diagnosis h1 with h2 | h2
          · exact Or.inl h2
          · exact Or.inr (Or.inl ⟨_, h2⟩)
        · exact Or.inl h1
      · exact Or.inr (Or.inr ⟨_, h1⟩)
    · split at h
      · rcases mem_push_diagnosis h with h1 | h1
        · exact Or.inl h1
        · exact Or.inr (Or.inl ⟨_, h1⟩)
      · exact Or.inl h

theorem checkChNewLine_mem {cfg : Config} {s : CheckState} {newline : NewLineChar}
    {x : Diagnosis} (h : x ∈ (checkChNewLine cfg s newline).diagnosis) :
    x ∈ s.diagnosis ∨
      (∃ b, x = ⟨s.line, (s.col - b, s.col), Reason.IndentStyle⟩) ∨
      (∃ b, x = ⟨s.line, (s.col - b, s.col), Reason.TrailingWhiteSpaces⟩) ∨
      x = ⟨s.line, (s.col - 1, s.col), Reason.EndOfLineMismatch⟩ := by
  have hA : ∀ y : Diagnosis, y ∈ (checkChNewLineA cfg s).diagnosis →
      y ∈ s.diagnosis ∨
        (∃ b, y = ⟨s.line, (s.col - b, s.col), Reason.IndentStyle⟩) ∨
        (∃ b, y = ⟨s.line, (s.col - b, s.col), Reason.TrailingWhiteSpaces⟩) ∨
        y = ⟨s.line, (s.col - 1, s.col), Reason.EndOfLineMismatch⟩ := by
    intro y hy
    rcases checkChNewLineA_mem hy with h1 | h1 | h1
    · exact Or.inl h1
    · exact Or.inr (Or.inl h1)
    · exact Or.inr (Or.inr (Or.inl h1))
  unfold checkChNewLine at h
  have hEol : ∀ t : CheckState, t.diagnosis = (checkChNewLineA cfg s).diagnosis →
      ∀ y : Diagnosis,
      y ∈ (push_diagnosis t ⟨s.line, (s.col - 1, s.col), Reason.EndOfLineMismatch⟩).diagnosis →
      y ∈ s.diagnosis ∨
        (∃ b, y = ⟨s.line, (s.col - b, s.col), Reason.IndentStyle⟩) ∨
        (∃ b, y = ⟨s.line, (s.col - b, s.col), Reason.TrailingWhiteSpaces⟩) ∨
        y = ⟨s.line, (s.col - 1, s.col), Reason.EndOfLineMismatch⟩ := by
    intro t ht y hy
    rcases mem_push_diagnosis hy with h1 | h1
    · exact hA y (ht ▸ h1)
    · exact Or.inr (Or.inr (Or.inr h1))
  rcases hp : s.prev_newline with _ | nl
  · rw [hp] at h
    cases newline <;> exact hA x h
  · rw [hp] at h
    cases newline <;> cases nl <;> dsimp only at h <;>
      simp only [move_next_line] at h
    · -- Cr after pending Cr
      split at h
      · exact hEol _ rfl x h
      · exact hA x h
    · -- Cr after pending Lf: unconditional mismatch
      exact hEol _ rfl x h
    · -- Lf after pending Cr
      split at h
      · exact hEol _ rfl x h
      · exact hA x h
    · -- Lf after pending Lf
      split at h
      · exact hEol _ rfl x h
      · exact hA x h

theorem checkChValid_mem {cfg : Config} {s : CheckState} {x : Diagnosis}
    (h : x ∈ (checkChValid cfg s).diagnosis) :
    x ∈ s.diagnosis ∨ (x.range.1 ≤ x.range.2 ∧
      (x.reason = Reason.EndOfLineMismatch ∨ x.reason = Reason.IndentStyle ∨
        ∃ n, x.reason = Reason.IndentSizeMismatch n)) := by
  unfold checkChValid at h
  cases hs : s.state with
  | NonWhitespace => rw [hs] at h; exact Or.inl h
  | NonIndentWhitespace len => rw [hs] at h; exact Or.inl h
  | Indent len se =>
    rw [hs] at h
    dsimp only at h
    rcases check_end_of_indent_mem h with h1 | h1 | h1
    · rcases check_end_of_newline_mem h1 with h2 | h2
      · exact Or.inl h2
      · subst h2; exact Or.inr ⟨Nat.sub_le _ _, Or.inl rfl⟩
    · subst h1; exact Or.inr ⟨Nat.sub_le _ _, Or.inr (Or.inl rfl)⟩
    · subst h1; exact Or.inr ⟨Nat.sub_le _ _, Or.inr (Or.inr ⟨len, rfl⟩)⟩

theorem checkChInvalid_mem {cfg : Config} {s : CheckState} {x : Diagnosis}
    (h : x ∈ (checkChInvalid cfg s).diagnosis) :
    x ∈ s.diagnosis ∨ (x.range.1 ≤ x.range.2 ∧
      (x.reason = Reason.EndOfLineMismatch ∨ x.reason = Reason.IndentStyle ∨
        (∃ n, x.reason = Reason.IndentSizeMismatch n) ∨
        x.reason = Reason.InvalidCharacter)) := by
  unfold checkChInvalid at h
  cases hs : s.state with
  | NonWhitespace =>
    rw [hs] at h
    rcases mem_push_diagnosis h with h1 | h1
    · exact Or.inl h1
    · subst h1; exact Or.inr ⟨Nat.sub_le _ _, Or.inr (Or.inr (Or.inr rfl))⟩
  | NonIndentWhitespace len =>
    rw [hs] at h
    rcases mem_push_diagnosis h with h1 | h1
    · exact Or.inl h1
    · subst h1; exact Or.inr ⟨Nat.sub_le _ _, Or.inr (Or.inr (Or.inr rfl))⟩
  | Indent len se =>
    rw [hs] at h
    dsimp only at h
    rcases mem_push_diagnosis h with h1 | h1
    · rcases check_end_of_indent_mem h1 with h2 | h2 | h2
      · rcases check_end_of_newline_mem h2 with h3 | h3
        · exact Or.inl h3
        · subst h3; exact Or.inr ⟨Nat.sub_le _ _, Or.inl rfl⟩
      · subst h2; exact Or.inr ⟨Nat.sub_le _ _, Or.inr (Or.inl rfl)⟩
      · subst h2; exact Or.inr ⟨Nat.sub_le _ _, Or.inr (Or.inr (Or.inl ⟨len, rfl⟩))⟩
    · subst h1; exact Or.inr ⟨Nat.sub_le _ _, Or.inr (Or.inr (Or.inr rfl))⟩

theorem check_ch_mem {cfg : Config} {s : CheckState} {c : Character} {x : Diagnosis}
    (h : x ∈ (check_ch cfg s c).diagnosis) :
    x ∈ s.diagnosis ∨ (x.range.1 ≤ x.range.2 ∧ allowedReason c x.reason) := by
  cases c with
  | Indent i =>
    rcases checkChIndent_mem h with h1 | h1
    · exact Or.inl h1
    · subst h1; exact Or.inr ⟨Nat.sub_le _ _, Or.inl rfl⟩
  | NewLine nl =>
    rcases checkChNewLine_mem h with h1 | ⟨b, h1⟩ | ⟨b, h1⟩ | h1
    · exact Or.inl h1
    · subst h1; exact Or.inr ⟨Nat.sub_le _ _, Or.inr (Or.inl rfl)⟩
    · subst h1; exact Or.inr ⟨Nat.sub_le _ _, Or.inr (Or.inr (Or.inr (Or.inl rfl)))⟩
    · subst h1; exact Or.inr ⟨Nat.sub_le _ _, Or.inl rfl⟩
  | Valid b =>
    rcases checkChValid_mem h with h1 | ⟨hr, h1 | h1 | h1⟩
    · exact Or.inl h1
    · exact Or.inr ⟨hr, Or.inl h1⟩
    · exact Or.inr ⟨hr, Or.inr (Or.inl h1)⟩
    · exact Or.inr ⟨hr, Or.inr (Or.inr (Or.inl h1))⟩
  | Invalid b =>
    rcases checkChInvalid_mem h with h1 | ⟨hr, h1 | h1 | h1 | h1⟩
    · exact Or.inl h1
    · exact Or.inr ⟨hr, Or.inl h1⟩
    · exact Or.inr ⟨hr, Or.inr (Or.inl h1)⟩
    · exact Or.inr ⟨hr, Or.inr (Or.inr (Or.inl h1))⟩
    · exact Or.inr ⟨hr, Or.inr (Or.inr (Or.inr (Or.inr ⟨h1, rfl⟩)))⟩
  | Bom =>
    rcases checkChInvalid_mem h with h1 | ⟨hr, h1 | h1 | h1 | h1⟩
    · exact Or.inl h1
    · exact Or.inr ⟨hr, Or.inl h1⟩
    · exact Or.inr ⟨hr, Or.inr (Or.inl h1)⟩
    · exact Or.inr ⟨hr, Or.inr (Or.inr (Or.inl h1))⟩
    · exact Or.inr ⟨hr, Or.inr (Or.inr (Or.inr (Or.inr ⟨h1, rfl⟩)))⟩

theorem foldl_check_ch_mem (cfg : Config) (ts : List Character) :
    ∀ (s : CheckState) (x : Diagnosis), x ∈ (ts.foldl (check_ch cfg) s).diagnosis →
      x ∈ s.diagnosis ∨ ∃ c ∈ ts, x.range.1 ≤ x.range.2 ∧ allowedReason c x.reason := by
  induction ts with
  | nil => intro s x h; exact Or.inl h
  | cons c ts ih =>
    intro s x h
    rcases ih (check_ch cfg s c) x h with h1 | ⟨c2, hc2, h2⟩
    · rcases check_ch_mem h1 with h2 | h2
      · exact Or.inl h2
      · exact Or.inr ⟨c, List.mem_cons_self c ts, h2⟩
    · exact Or.inr ⟨c2, List.mem_cons_of_mem c hc2, h2⟩

theorem initState_diagnosis : initState.diagnosis = [] := rfl

theorem checkTokens_mem {cfg : Config} {toks : List Character} {x : Diagnosis}
    (h : x ∈ checkTokens cfg toks) :
    x = ⟨1, (0, 0), Reason.BomNotFound⟩ ∨
      ∃ c ∈ toks, x.range.1 ≤ x.range.2 ∧ allowedReason c x.reason := by
  have hpush : ∀ y : Diagnosis,
      y ∈ (push_diagnosis initState ⟨1, (0, 0), Reason.BomNotFound⟩).diagnosis →
      y = ⟨1, (0, 0), Reason.BomNotFound⟩ := by
    intro y hy
    rcases mem_push_diagnosis hy with h1 | h1
    · simp [initState_diagnosis] at h1
    · exact h1
  unfold checkTokens at h
  rcases hcs : cfg.charset with _ | cs
  · rw [hcs] at h
    dsimp only at h
    rcases foldl_check_ch_mem cfg toks initState x h with h1 | h1
    · simp [initState_diagnosis] at h1
    · exact Or.inr h1
  · cases cs <;> rw [hcs] at h <;> dsimp only at h
    case Latin1 =>
      rcases foldl_check_ch_mem cfg toks initState x h with h1 | h1
      · simp [initState_diagnosis] at h1
      · exact Or.inr h1
    case Utf8 =>
      rcases foldl_check_ch_mem cfg toks initState x h with h1 | h1
      · simp [initState_diagnosis] at h1
      · exact Or.inr h1
    case Utf8WithBom =>
      match toks, h with
      | [], h =>
        exact Or.inl (hpush x h)
      | Character.Bom :: rest, h =>
        rcases foldl_check_ch_mem cfg rest initState x h with h1 | ⟨c2, hc2, h2⟩
        · simp [initState_diagnosis] at h1
        · exact Or.inr ⟨c2, List.mem_cons_of_mem _ hc2, h2⟩
      | Character.Invalid b :: rest, h =>
        rcases foldl_check_ch_mem cfg rest _ x h with h1 | ⟨c2, hc2, h2⟩
        · rcases check_ch_mem h1 with h2 | h2
          · exact Or.inl (hpush x h2)
          · exact Or.inr ⟨_, List.mem_cons_self _ _, h2⟩
        · exact Or.inr ⟨c2, List.mem_cons_of_mem _ hc2, h2⟩
      | Character.NewLine nl :: rest, h =>
        rcases foldl_check_ch_mem cfg rest _ x h with h1 | ⟨c2, hc2, h2⟩
        · rcases check_ch_mem h1 with h2 | h2
          · exact Or.inl (hpush x h2)
          · exact Or.inr ⟨_, List.mem_cons_self _ _, h2⟩
        · exact Or.inr ⟨c2, List.mem_cons_of_mem _ hc2, h2⟩
      | Character.Indent i :: rest, h =>
        rcases foldl_check_ch_mem cfg rest _ x h with h1 | ⟨c2, hc2, h2⟩
        · rcases check_ch_mem h1 with h2 | h2
          · exact Or.inl (hpush x h2)
          · exact Or.inr ⟨_, List.mem_cons_self _ _, h2⟩
        · exact Or.inr ⟨c2, List.mem_cons_of_mem _ hc2, h2⟩
      | Character.Valid b :: rest, h =>
        rcases foldl_check_ch_mem cfg rest _ x h with h1 | ⟨c2, hc2, h2⟩
        · rcases check_ch_mem h1 with h2 | h2
          · exact Or.inl (hpush x h2)
          · exact Or.inr ⟨_, List.mem_cons_self _ _, h2⟩
        · exact Or.inr ⟨c2, List.mem_cons_of_mem _ hc2, h2⟩
    case Utf16BigEndian =>
      match toks, h with
      | [], h =>
        simp only [List.foldl_nil, initState_diagnosis] at h
        exact absurd h (List.not_mem_nil x)
      | Character.Bom :: rest, h =>
        rcases foldl_check_ch_mem cfg rest initState x h with h1 | ⟨c2, hc2, h2⟩
        · simp [initState_diagnosis] at h1
        · exact Or.inr ⟨c2, List.mem_cons_of_mem _ hc2, h2⟩
      | Character.Invalid b :: rest, h =>
        rcases foldl_check_ch_mem cfg rest _ x h with h1 | ⟨c2, hc2, h2⟩
        · rcases check_ch_mem h1 with h2 | h2
          · simp [initState_diagnosis] at h2
          · exact Or.inr ⟨_, List.mem_cons_self _ _, h2⟩
        · exact Or.inr ⟨c2, List.mem_cons_of_mem _ hc2, h2⟩
      | Character.NewLine nl :: rest, h =>
        rcases foldl_check_ch_mem cfg rest _ x h with h1 | ⟨c2, hc2, h2⟩
        · rcases check_ch_mem h1 with h2 | h2
          · simp [initState_diagnosis] at h2
          · exact Or.inr ⟨_, List.mem_cons_self _ _, h2⟩
        · exact Or.inr ⟨c2, List.mem_cons_of_mem _ hc2, h2⟩
      | Character.Indent i :: rest, h =>
        rcases foldl_check_ch_mem cfg rest _ x h with h1 | ⟨c2, hc2, h2⟩
        · rcases check_ch_mem h1 with h2 | h2
          · simp [initState_diagnosis] at h2
          · exact Or.inr ⟨_, List.mem_cons_self _ _, h2⟩
        · exact Or.inr ⟨c2, List.mem_cons_of_mem _ hc2, h2⟩
      | Character.Valid b :: rest, h =>
        rcases foldl_check_ch_mem cfg rest _ x h with h1 | ⟨c2, hc2, h2⟩
        · rcases check_ch_mem h1 with h2 | h2
          · simp [initState_diagnosis] at h2
          · exact Or.inr ⟨_, List.mem_cons_self _ _, h2⟩
        · exact Or.inr ⟨c2, List.mem_cons_of_mem _ hc2, h2⟩
    case Utf16LittleEndian =>
      match toks, h with
      | [], h =>
        simp only [List.foldl_nil, initState_diagnosis] at h
        exact absurd h (List.not_mem_nil x)
      | Character.Bom :: rest, h =>
        rcases foldl_check_ch_mem cfg rest initState x h with h1 | ⟨c2, hc2, h2⟩
        · simp [initState_diagnosis] at h1
        · exact Or.inr ⟨c2, List.mem_cons_of_mem _ hc2, h2⟩
      | Character.Invalid b :: rest, h =>
        rcases foldl_check_ch_mem cfg rest _ x h with h1 | ⟨c2, hc2, h2⟩
        · rcases check_ch_mem h1 with h2 | h2
          · simp [initState_diagnosis] at h2
          · exact Or.inr ⟨_, List.mem_cons_self _ _, h2⟩
        · exact Or.inr ⟨c2, List.mem_cons_of_mem _ hc2, h2⟩
      | Character.NewLine nl :: rest, h =>
        rcases foldl_check_ch_mem cfg rest _ x h with h1 | ⟨c2, hc2, h2⟩
        · rcases check_ch_mem h1 with h2 | h2
          · simp [initState_diagnosis] at h2
          · exact Or.inr ⟨_, List.mem_cons_self _ _, h2⟩
        · exact Or.inr ⟨c2, List.mem_cons_of_mem _ hc2, h2⟩
      | Character.Indent i :: rest, h =>
        rcases foldl_check_ch_mem cfg rest _ x h with h1 | ⟨c2, hc2, h2⟩
        · rcases check_ch_mem h1 with h2 | h2
          · simp [initState_diagnosis] at h2
          · exact Or.inr ⟨_, List.mem_cons_self _ _, h2⟩
        · exact Or.inr ⟨c2, List.mem_cons_of_mem _ hc2, h2⟩
      | Character.Valid b :: rest, h =>
        rcases foldl_check_ch_mem cfg rest _ x h with h1 | ⟨c2, hc2, h2⟩
        · rcases check_ch_mem h1 with h2 | h2
          · simp [initState_diagnosis] at h2
          · exact Or.inr ⟨_, List.mem_cons_self _ _, h2⟩
        · exact Or.inr ⟨c2, List.mem_cons_of_mem _ hc2, h2⟩

theorem check_mem {input : List Nat} {cfg : Config} {ds : List Diagnosis}
    (h : check input cfg = some ds) {x : Diagnosis} (hx : x ∈ ds) :
    x = ⟨1, (0, 0), Reason.BomNotFound⟩ ∨
      ∃ c ∈ tokenize cfg.charset input,
        x.range.1 ≤ x.range.2 ∧ allowedReason c x.reason := by
  unfold check at h
  rcases hcs : cfg.charset with _ | cs
  · rw [hcs] at h
    cases h
    exact checkTokens_mem hx
  · cases cs <;> rw [hcs] at h <;> cases h <;> exact checkTokens_mem hx

@[simp] theorem push_diagnosis_line (s : CheckState) (d : Diagnosis) :
    (push_diagnosis s d).line = s.line := rfl

@[simp] theorem push_diagnosis_col (s : CheckState) (d : Diagnosis) :
    (push_diagnosis s d).col = s.col := rfl

@[simp] theorem push_diagnosis_state (s : CheckState) (d : Diagnosis) :
    (push_diagnosis s d).state = s.state := rfl

@[simp] theorem push_diagnosis_prev (s : CheckState) (d : Diagnosis) :
    (push_diagnosis s d).prev_newline = s.prev_newline := rfl

@[simp] theorem push_diagnosis_diag (s : CheckState) (d : Diagnosis) :
    (push_diagnosis s d).diagnosis = s.diagnosis ++ [d] := rfl

@[simp] theorem move_next_line_line (s : CheckState) :
    (move_next_line s).line = s.line + 1 := rfl

@[simp] theorem move_next_line_col (s : CheckState) :
    (move_next_line s).col = 1 := rfl

@[simp] theorem move_next_line_state (s : CheckState) :
    (move_next_line s).state = s.state := rfl

@[simp] theorem move_next_line_prev (s : CheckState) :
    (move_next_line s).prev_newline = s.prev_newline := rfl

@[simp] theorem move_next_line_diag (s : CheckState) :
    (move_next_line s).diagnosis = s.diagnosis := rfl

theorem check_end_of_newline_state (cfg : Config) (s : CheckState) :
    (check_end_of_newline cfg s).state = s.state := by
  unfold check_end_of_newline
  cases s.prev_newline with
  | none => rfl
  | some nl => dsimp only; split <;> rfl

theorem check_end_of_newline_prev (cfg : Config) (s : CheckState) :
    (check_end_of_newline cfg s).prev_newline = none ∨
      (check_end_of_newline cfg s) = s := by
  unfold check_end_of_newline
  cases s.prev_newline <;> dsimp only
  · exact Or.inr rfl
  · left; split <;> rfl

theorem check_end_of_newline_of_prev_none (cfg : Config) (s : CheckState)
    (h : s.prev_newline = none) : check_end_of_newline cfg s = s := by
  unfold check_end_of_newline
  rw [h]

theorem check_end_of_newline_diag_of_eol_none {cfg : Config} (s : CheckState)
    (heol : cfg.end_of_line = none) :
    (check_end_of_newline cfg s).diagnosis = s.diagnosis := by
  unfold check_end_of_newline
  cases s.prev_newline with
  | none => rfl
  | some nl => rw [heol]; simp

theorem check_end_of_indent_state (cfg : Config) (s : CheckState) (len : Nat) (se : Bool) :
    (check_end_of_indent cfg s len se).state = s.state := by
  unfold check_end_of_indent
  split
  · rfl
  · split
    · split <;> rfl
    · rfl

theorem check_end_of_indent_prev (cfg : Config) (s : CheckState) (len : Nat) (se : Bool) :
    (check_end_of_indent cfg s len se).prev_newline = s.prev_newline := by
  unfold check_end_of_indent
  split
  · rfl
  · split
    · split <;> rfl
    · rfl

theorem check_end_of_indent_diag_nopush {cfg : Config} (s : CheckState) (len : Nat)
    (hsize : cfg.indent_size = none) :
    (check_end_of_indent cfg s len false).diagnosis = s.diagnosis := by
  unfold check_end_of_indent
  rw [hsize]
  simp

theorem checkChNewLineA_state (cfg : Config) (s : CheckState) :
    (checkChNewLineA cfg s).state = State.Indent 0 false := rfl

theorem checkChNewLineA_prev (cfg : Config) (s : CheckState) :
    (checkChNewLineA cfg s).prev_newline = s.prev_newline := by
  unfold checkChNewLineA
  cases s.state <;> dsimp only <;> (repeat' split) <;> rfl

theorem checkChNewLineA_line (cfg : Config) (s : CheckState) :
    (checkChNewLineA cfg s).line = s.line := by
  unfold checkChNewLineA
  cases s.state <;> dsimp only <;> (repeat' split) <;> rfl

theorem checkChNewLineA_col (cfg : Config) (s : CheckState) :
    (checkChNewLineA cfg s).col = s.col := by
  unfold checkChNewLineA
  cases s.state <;> dsimp only <;> (repeat' split) <;> rfl

theorem checkChNewLineA_diag_nopush {cfg : Config} (s : CheckState)
    (hse : ∀ len, s.state ≠ State.Indent len true)
    (htrim : cfg.trim_trailing_whitespace = none) :
    (checkChNewLineA cfg s).diagnosis = s.diagnosis := by
  unfold checkChNewLineA
  cases hs : s.state with
  | NonWhitespace => rfl
  | NonIndentWhitespace len => dsimp only; rw [htrim]; simp
  | Indent len se =>
    cases se with
    | true => exact absurd hs (hse len)
    | false => dsimp only; rw [htrim]; simp

theorem uncheckedNext_not_invalidOrBom (input : List Nat) (c : Character) (rest : List Nat)
    (h : uncheckedNext input = some (c, rest)) : isInvalidOrBom c = false := by
  cases input with
  | nil => cases h
  | cons b bs =>
    unfold uncheckedNext at h
    repeat' split at h
    all_goals (cases h <;> rfl)

theorem tokenizeAux_unchecked_not_invalidOrBom :
    ∀ (fuel : Nat) (input : List Nat) (c : Character),
      c ∈ tokenizeAux uncheckedNext fuel input → isInvalidOrBom c = false := by
  intro fuel
  induction fuel with
  | zero => intro input c h; exact absurd h (List.not_mem_nil c)
  | succ n ih =>
    intro input c h
    unfold tokenizeAux at h
    rcases hn : uncheckedNext input with _ | ⟨c2, rest⟩
    · rw [hn] at h; exact absurd h (List.not_mem_nil c)
    · rw [hn] at h
      rcases List.mem_cons.mp h with h1 | h1
      · subst h1; exact uncheckedNext_not_invalidOrBom _ _ _ hn
      · exact ih rest c h1

/-- C4 amended.  Every diagnosis returned by `check` has a column range
with `start ≤ end` (the claimed lower bound `1 ≤ start` does not hold:
`BomNotFound` carries `(0, 0)` and a diagnosis at the first column of a
line carries `(0, 1)`). -/
theorem check_range_start_le_end :
    ∀ (input : List Nat) (cfg : Config) (ds : List Diagnosis),
      check input cfg = some ds → ∀ d ∈ ds, d.range.1 ≤ d.range.2 := by
  intro input cfg ds h d hd
  rcases check_mem h hd with h1 | ⟨c, _, hr, _⟩
  · subst h1; exact Nat.le_refl 0
  · exact hr

/-- C4 amended, witness: the `BomNotFound` diagnosis produced for empty
input under `utf-8-bom` satisfies the bound. -/
theorem check_range_start_le_end_witness :
    (⟨1, (0, 0), Reason.BomNotFound⟩ : Diagnosis).range.1 ≤
      (⟨1, (0, 0), Reason.BomNotFound⟩ : Diagnosis).range.2 :=
  check_range_start_le_end [] cfgUtf8Bom [⟨1, (0, 0), Reason.BomNotFound⟩]
    (by decide) ⟨1, (0, 0), Reason.BomNotFound⟩ (by decide)

/-- C7.  When the config's charset is absent (byte-transparent mode), no
`InvalidCharacter` diagnosis is ever returned: the unchecked reader
produces no `Invalid` or `Bom` token, and those tokens are the only
source of `InvalidCharacter`. -/
theorem check_unchecked_no_invalidCharacter :
    ∀ (input : List Nat) (cfg : Config) (ds : List Diagnosis),
      cfg.charset = none → check input cfg = some ds →
      ∀ d ∈ ds, d.reason ≠ Reason.InvalidCharacter := by
  intro input cfg ds hcs h d hd hre
  rcases check_mem h hd with h1 | ⟨c, hc, _, hal⟩
  · rw [h1] at hre; cases hre
  · rw [hre] at hal
    rcases hal with h2 | h2 | ⟨n, h2⟩ | h2 | ⟨_, h3⟩
    · cases h2
    · cases h2
    · cases h2
    · cases h2
    · rw [hcs] at hc
      exact absurd h3 (by simp [tokenizeAux_unchecked_not_invalidOrBom _ _ _ hc])

/-- C7 witness: a run in byte-transparent mode that emits a diagnosis,
which is indeed not `InvalidCharacter`. -/
theorem check_unchecked_no_invalidCharacter_witness :
    (⟨1, (0, 1), Reason.EndOfLineMismatch⟩ : Diagnosis).reason ≠ Reason.InvalidCharacter :=
  check_unchecked_no_invalidCharacter [0x0A, 0x0D] cfgEmpty
    [⟨1, (0, 1), Reason.EndOfLineMismatch⟩] rfl (by decide)
    ⟨1, (0, 1), Reason.EndOfLineMismatch⟩ (by decide)

/-- C10.  No diagnosis returned by `check` ever has reason
`NoFinalNewline`: no push site in the engine uses that variant. -/
theorem check_no_noFinalNewline :
    ∀ (input : List Nat) (cfg : Config) (ds : List Diagnosis),
      check input cfg = some ds → ∀ d ∈ ds, d.reason ≠ Reason.NoFinalNewline := by
  intro input cfg ds h d hd hre
  rcases check_mem h hd with h1 | ⟨c, _, _, hal⟩
  · rw [h1] at hre; cases hre
  · rw [hre] at hal
    rcases hal with h2 | h2 | ⟨n, h2⟩ | h2 | ⟨h2, _⟩
    · cases h2
    · cases h2
    · cases h2
    · cases h2
    · cases h2

/-- C10 witness: a run that emits a diagnosis, which is indeed not
`NoFinalNewline`. -/
theorem check_no_noFinalNewline_witness :
    (⟨1, (0, 1), Reason.EndOfLineMismatch⟩ : Diagnosis).reason ≠ Reason.NoFinalNewline :=
  check_no_noFinalNewline [0x0A, 0x0D] cfgEmpty
    [⟨1, (0, 1), Reason.EndOfLineMismatch⟩] (by decide)
    ⟨1, (0, 1), Reason.EndOfLineMismatch⟩ (by decide)

theorem check_ch_empty_step {cfg : Config}
    (hstyle : cfg.indent_style = none) (hsize : cfg.indent_size = none)
    (heol : cfg.end_of_line = none) (htrim : cfg.trim_trailing_whitespace = none)
    {c : Character} (hc : isInvalidOrBom c = false) {s : CheckState}
    (hdiag : ∀ d ∈ s.diagnosis, d.reason = Reason.EndOfLineMismatch)
    (hse : ∀ len, s.state ≠ State.Indent len true) :
    (∀ d ∈ (check_ch cfg s c).diagnosis, d.reason = Reason.EndOfLineMismatch) ∧
      (∀ len, (check_ch cfg s c).state ≠ State.Indent len true) := by
  cases c with
  | Invalid b => simp [isInvalidOrBom] at hc
  | Bom => simp [isInvalidOrBom] at hc
  | Indent i =>
    have hred : check_ch cfg s (Character.Indent i) = checkChIndent cfg s i := rfl
    rw [hred]
    unfold checkChIndent
    cases hs : s.state with
    | NonWhitespace =>
      exact ⟨fun d hd => hdiag d hd, fun len => by simp⟩
    | NonIndentWhitespace len0 =>
      refine ⟨fun d hd => hdiag d hd, fun len => ?_⟩
      dsimp only
      rw [hs]
      simp
    | Indent len0 se =>
      have hsef : se = false := by
        cases se
        · rfl
        · exact absurd hs (hse len0)
      subst hsef
      dsimp only
      rw [hstyle]
      constructor
      · intro d hd
        split at hd
        · rw [check_end_of_newline_diag_of_eol_none s heol] at hd
          exact hdiag d hd
        · exact hdiag d hd
      · intro len
        cases i <;> simp
  | NewLine nl =>
    have hred : check_ch cfg s (Character.NewLine nl) = checkChNewLine cfg s nl := rfl
    rw [hred]
    have hA : (checkChNewLineA cfg s).diagnosis = s.diagnosis :=
      checkChNewLineA_diag_nopush s hse htrim
    have hAs : (checkChNewLineA cfg s).state = State.Indent 0 false :=
      checkChNewLineA_state cfg s
    unfold checkChNewLine
    rcases hp : s.prev_newline with _ | nl2
    · cases nl <;> dsimp only <;>
        exact ⟨fun d hd => hdiag d (hA ▸ hd), fun len => by rw [hAs]; simp⟩
    · cases nl <;> cases nl2 <;> dsimp only <;>
        (try rw [heol]) <;>
        constructor
      all_goals
        first
          | (intro d hd
             simp [hA] at hd
             exact hdiag d hd)
          | (intro d hd
             simp [hA] at hd
             rcases hd with hd2 | rfl
             · exact hdiag d hd2
             · rfl)
          | (intro len
             simp [hAs])
  | Valid b =>
    have hred : check_ch cfg s (Character.Valid b) = checkChValid cfg s := rfl
    rw [hred]
    unfold checkChValid
    cases hs : s.state with
    | NonWhitespace =>
      exact ⟨fun d hd => hdiag d hd, fun len => by simp⟩
    | NonIndentWhitespace len0 =>
      exact ⟨fun d hd => hdiag d hd, fun len => by simp⟩
    | Indent len0 se =>
      have hsef : se = false := by
        cases se
        · rfl
        · exact absurd hs (hse len0)
      subst hsef
      dsimp only
      refine ⟨fun d hd => ?_, fun len => by simp⟩
      rw [check_end_of_indent_diag_nopush _ _ hsize,
        check_end_of_newline_diag_of_eol_none s heol] at hd
      exact hdiag d hd

theorem foldl_empty_only_eol {cfg : Config}
    (hstyle : cfg.indent_style = none) (hsize : cfg.indent_size = none)
    (heol : cfg.end_of_line = none) (htrim : cfg.trim_trailing_whitespace = none) :
    ∀ (ts : List Character), (∀ c ∈ ts, isInvalidOrBom c = false) →
      ∀ (s : CheckState), (∀ d ∈ s.diagnosis, d.reason = Reason.EndOfLineMismatch) →
        (∀ len, s.state ≠ State.Indent len true) →
        ∀ d ∈ (ts.foldl (check_ch cfg) s).diagnosis, d.reason = Reason.EndOfLineMismatch := by
  intro ts
  induction ts with
  | nil => intro _ s hdiag _ d hd; exact hdiag d hd
  | cons c ts ih =>
    intro hts s hdiag hse
    have hstep := check_ch_empty_step hstyle hsize heol htrim
      (hts c (List.mem_cons_self c ts)) hdiag hse
    exact ih (fun c2 hc2 => hts c2 (List.mem_cons_of_mem c hc2))
      (check_ch cfg s c) hstep.1 hstep.2

/-- C6 amended.  When every config option is absent, every diagnosis
`check` returns has reason `EndOfLineMismatch` (the `(Cr, Some(Lf))` arm
of the newline resolution is unguarded); no other diagnosis kind can be
emitted under the empty config. -/
theorem check_emptyConfig_only_eol :
    ∀ (cfg : Config), cfg.indent_style = none → cfg.indent_size = none →
      cfg.end_of_line = none → cfg.charset = none →
      cfg.trim_trailing_whitespace = none → cfg.insert_final_newline = none →
      ∀ (input : List Nat) (ds : List Diagnosis), check input cfg = some ds →
      ∀ d ∈ ds, d.reason = Reason.EndOfLineMismatch := by
  intro cfg hstyle hsize heol hcs htrim _ input ds h d hd
  unfold check at h
  rw [hcs] at h
  cases h
  unfold checkTokens at hd
  rw [hcs] at hd
  dsimp only at hd
  refine foldl_empty_only_eol hstyle hsize heol htrim _ ?_ initState ?_ ?_ d hd
  · intro c hc
    unfold tokenize at hc
    rw [show readerFor none = uncheckedNext from rfl] at hc
    exact tokenizeAux_unchecked_not_invalidOrBom _ _ _ hc
  · intro d2 hd2
    exact absurd hd2 (List.not_mem_nil d2)
  · intro len
    simp [initState]

/-- C6 amended, witness: the unconditional LF-then-CR mismatch diagnosis
of the empty-config run on `0x0A 0x0D` is indeed `EndOfLineMismatch`. -/
theorem check_emptyConfig_only_eol_witness :
    (⟨1, (0, 1), Reason.EndOfLineMismatch⟩ : Diagnosis).reason = Reason.EndOfLineMismatch :=
  check_emptyConfig_only_eol cfgEmpty rfl rfl rfl rfl rfl rfl [0x0A, 0x0D]
    [⟨1, (0, 1), Reason.EndOfLineMismatch⟩] (by decide)
    ⟨1, (0, 1), Reason.EndOfLineMismatch⟩ (by decide)

theorem eolTerminatorsOk_cons_skip {eol : LineEnding} {c : Character}
    (hc : ∀ k, c ≠ Character.NewLine k) {ts : List Character}
    (h : eolTerminatorsOk eol (c :: ts) = true) : eolTerminatorsOk eol ts = true := by
  cases c with
  | NewLine k => exact absurd rfl (hc k)
  | Bom => cases eol <;> simpa [eolTerminatorsOk] using h
  | Invalid b => cases eol <;> simpa [eolTerminatorsOk] using h
  | Indent i => cases eol <;> simpa [eolTerminatorsOk] using h
  | Valid b => cases eol <;> simpa [eolTerminatorsOk] using h

theorem eolArmed_prev_compat_of_not_newline {eol : LineEnding} {prev : Option NewLineChar}
    {c : Character} {ts : List Character} (hc : ∀ k, c ≠ Character.NewLine k)
    (h : eolArmed eol prev (c :: ts)) :
    ∀ k, prev = some k → newLineEqLineEnding k eol = true := by
  intro k hk
  subst hk
  cases eol with
  | Lf =>
    cases k with
    | Lf => rfl
    | Cr => exact absurd rfl h.1
  | Cr =>
    cases k with
    | Cr => rfl
    | Lf => exact absurd rfl h.1
  | Crlf =>
    cases k with
    | Lf => exact absurd rfl h.1
    | Cr =>
      rcases h.2 with ⟨ts2, hts2, _⟩
      cases hts2
      exact absurd rfl (hc NewLineChar.Lf)

theorem eolArmed_none_tail {eol : LineEnding} {prev : Option NewLineChar}
    {c : Character} {ts : List Character} (hc : ∀ k, c ≠ Character.NewLine k)
    (h : eolArmed eol prev (c :: ts)) : eolArmed eol none ts := by
  cases eol with
  | Lf => exact ⟨by simp, eolTerminatorsOk_cons_skip hc h.2⟩
  | Cr => exact ⟨by simp, eolTerminatorsOk_cons_skip hc h.2⟩
  | Crlf =>
    refine ⟨by simp, ?_⟩
    show eolTerminatorsOk LineEnding.Crlf ts = true
    rcases hp : prev with _ | k
    · rw [hp] at h
      exact eolTerminatorsOk_cons_skip hc h.2
    · cases k with
      | Lf => rw [hp] at h; exact absurd rfl h.1
      | Cr =>
        rw [hp] at h
        rcases h.2 with ⟨ts2, hts2, _⟩
        cases hts2
        exact absurd rfl (hc NewLineChar.Lf)

theorem eolArmed_keep_tail {eol : LineEnding} {prev : Option NewLineChar}
    {c : Character} {ts : List Character} (hc : ∀ k, c ≠ Character.NewLine k)
    (h : eolArmed eol prev (c :: ts)) : eolArmed eol prev ts := by
  cases eol with
  | Lf => exact ⟨h.1, eolTerminatorsOk_cons_skip hc h.2⟩
  | Cr => exact ⟨h.1, eolTerminatorsOk_cons_skip hc h.2⟩
  | Crlf =>
    refine ⟨h.1, ?_⟩
    rcases hp : prev with _ | k
    · rw [hp] at h
      exact eolTerminatorsOk_cons_skip hc h.2
    · cases k with
      | Lf => rw [hp] at h; exact absurd rfl h.1
      | Cr =>
        rw [hp] at h
        rcases h.2 with ⟨ts2, hts2, _⟩
        cases hts2
        exact absurd rfl (hc NewLineChar.Lf)

theorem check_end_of_newline_diag_of_compat {cfg : Config} {eol : LineEnding}
    (heol : cfg.end_of_line = some eol) {s : CheckState}
    (hok : ∀ k, s.prev_newline = some k → newLineEqLineEnding k eol = true) :
    (check_end_of_newline cfg s).diagnosis = s.diagnosis := by
  unfold check_end_of_newline
  cases hp : s.prev_newline with
  | none => rfl
  | some k =>
    have hk := hok k hp
    rw [heol]
    simp [hk]

theorem checkChIndent_prev (cfg : Config) (s : CheckState) (i : IndentChar) :
    (checkChIndent cfg s i).prev_newline = none := rfl

theorem checkChValid_prev (cfg : Config) (s : CheckState) :
    (checkChValid cfg s).prev_newline = none ∨
      (checkChValid cfg s).prev_newline = s.prev_newline := by
  unfold checkChValid
  cases hs : s.state with
  | NonWhitespace => exact Or.inr rfl
  | NonIndentWhitespace len => exact Or.inr rfl
  | Indent len se =>
    dsimp only
    rw [check_end_of_indent_prev]
    rcases check_end_of_newline_prev cfg s with h | h
    · exact Or.inl h
    · rw [h]; exact Or.inr rfl

theorem checkChInvalid_prev (cfg : Config) (s : CheckState) :
    (checkChInvalid cfg s).prev_newline = none ∨
      (checkChInvalid cfg s).prev_newline = s.prev_newline := by
  unfold checkChInvalid
  cases hs : s.state with
  | NonWhitespace => exact Or.inr rfl
  | NonIndentWhitespace len => exact Or.inr rfl
  | Indent len se =>
    dsimp only
    rw [push_diagnosis_prev, check_end_of_indent_prev]
    rcases check_end_of_newline_prev cfg s with h | h
    · exact Or.inl h
    · rw [h]; exact Or.inr rfl

theorem checkChIndent_diag_of_compat {cfg : Config} {eol : LineEnding}
    (heol : cfg.end_of_line = some eol) {s : CheckState}
    (hok : ∀ k, s.prev_newline = some k → newLineEqLineEnding k eol = true)
    (i : IndentChar) : (checkChIndent cfg s i).diagnosis = s.diagnosis := by
  unfold checkChIndent
  cases hs : s.state with
  | NonWhitespace => rfl
  | NonIndentWhitespace len => rfl
  | Indent len se =>
    dsimp only
    split
    · exact check_end_of_newline_diag_of_compat heol hok
    · rfl

theorem checkChValid_diag_of_compat {cfg : Config} {eol : LineEnding}
    (heol : cfg.end_of_line = some eol) {s : CheckState}
    (hok : ∀ k, s.prev_newline = some k → newLineEqLineEnding k eol = true)
    {x : Diagnosis} (hx : x ∈ (checkChValid cfg s).diagnosis) :
    x ∈ s.diagnosis ∨ x.reason ≠ Reason.EndOfLineMismatch := by
  unfold checkChValid at hx
  cases hs : s.state with
  | NonWhitespace => rw [hs] at hx; exact Or.inl hx
  | NonIndentWhitespace len => rw [hs] at hx; exact Or.inl hx
  | Indent len se =>
    rw [hs] at hx
    dsimp only at hx
    rcases check_end_of_indent_mem hx with h1 | h1 | h1
    · rw [check_end_of_newline_diag_of_compat heol hok] at h1
      exact Or.inl h1
    · subst h1; exact Or.inr (by simp)
    · subst h1; exact Or.inr (by simp)

theorem checkChInvalid_diag_of_compat {cfg : Config} {eol : LineEnding}
    (heol : cfg.end_of_line = some eol) {s : CheckState}
    (hok : ∀ k, s.prev_newline = some k → newLineEqLineEnding k eol = true)
    {x : Diagnosis} (hx : x ∈ (checkChInvalid cfg s).diagnosis) :
    x ∈ s.diagnosis ∨ x.reason ≠ Reason.EndOfLineMismatch := by
  unfold checkChInvalid at hx
  cases hs : s.state with
  | NonWhitespace =>
    rw [hs] at hx
    rcases mem_push_diagnosis hx with h1 | h1
    · exact Or.inl h1
    · subst h1; exact Or.inr (by simp)
  | NonIndentWhitespace len =>
    rw [hs] at hx
    rcases mem_push_diagnosis hx with h1 | h1
    · exact Or.inl h1
    · subst h1; exact Or.inr (by simp)
  | Indent len se =>
    rw [hs] at hx
    dsimp only at hx
    rcases mem_push_diagnosis hx with h1 | h1
    · rcases check_end_of_indent_mem h1 with h2 | h2 | h2
      · rw [check_end_of_newline_diag_of_compat heol hok] at h2
        exact Or.inl h2
      · subst h2; exact Or.inr (by simp)
      · subst h2; exact Or.inr (by simp)
    · subst h1; exact Or.inr (by simp)

theorem checkChNewLineA_diag_no_eol {cfg : Config} {s : CheckState} {x : Diagnosis}
    (hx : x ∈ (checkChNewLineA cfg s).diagnosis) :
    x ∈ s.diagnosis ∨ x.reason ≠ Reason.EndOfLineMismatch := by
  rcases checkChNewLineA_mem hx with h1 | ⟨b, h1⟩ | ⟨b, h1⟩
  · exact Or.inl h1
  · subst h1; exact Or.inr (by simp)
  · subst h1; exact Or.inr (by simp)

theorem eolOk_crlf_cr_cons {ts : List Character}
    (h : eolTerminatorsOk LineEnding.Crlf (Character.NewLine NewLineChar.Cr :: ts) = true) :
    ∃ ts2, ts = Character.NewLine NewLineChar.Lf :: ts2 ∧
      eolTerminatorsOk LineEnding.Crlf ts2 = true := by
  match ts, h with
  | Character.NewLine NewLineChar.Lf :: ts2, h =>
    exact ⟨ts2, rfl, by simpa [eolTerminatorsOk] using h⟩
  | [], h => simp [eolTerminatorsOk] at h
  | Character.NewLine NewLineChar.Cr :: ts2, h => simp [eolTerminatorsOk] at h
  | Character.Bom :: ts2, h => simp [eolTerminatorsOk] at h
  | Character.Invalid b :: ts2, h => simp [eolTerminatorsOk] at h
  | Character.Indent i :: ts2, h => simp [eolTerminatorsOk] at h
  | Character.Valid b :: ts2, h => simp [eolTerminatorsOk] at h

theorem check_ch_eol_step {cfg : Config} {eol : LineEnding}
    (heol : cfg.end_of_line = some eol) {s : CheckState} {c : Character}
    {ts : List Character}
    (harm : eolArmed eol s.prev_newline (c :: ts))
    (hdiag : ∀ d ∈ s.diagnosis, d.reason ≠ Reason.EndOfLineMismatch) :
    eolArmed eol (check_ch cfg s c).prev_newline ts ∧
      ∀ d ∈ (check_ch cfg s c).diagnosis, d.reason ≠ Reason.EndOfLineMismatch := by
  cases c with
  | Indent i =>
    have hnn : ∀ k, (Character.Indent i) ≠ Character.NewLine k := fun k h => by cases h
    have hok := eolArmed_prev_compat_of_not_newline hnn harm
    refine ⟨?_, ?_⟩
    · have hprev : (check_ch cfg s (Character.Indent i)).prev_newline = none :=
        checkChIndent_prev cfg s i
      rw [hprev]
      exact eolArmed_none_tail hnn harm
    · intro d hd
      have heq : (check_ch cfg s (Character.Indent i)).diagnosis = s.diagnosis :=
        checkChIndent_diag_of_compat heol hok i
      rw [heq] at hd
      exact hdiag d hd
  | Valid b =>
    have hnn : ∀ k, (Character.Valid b) ≠ Character.NewLine k := fun k h => by cases h
    have hok := eolArmed_prev_compat_of_not_newline hnn harm
    refine ⟨?_, ?_⟩
    · rcases checkChValid_prev cfg s with h | h
      · rw [show (check_ch cfg s (Character.Valid b)).prev_newline =
            (checkChValid cfg s).prev_newline from rfl, h]
        exact eolArmed_none_tail hnn harm
      · rw [show (check_ch cfg s (Character.Valid b)).prev_newline =
            (checkChValid cfg s).prev_newline from rfl, h]
        exact eolArmed_keep_tail hnn harm
    · intro d hd
      rcases checkChValid_diag_of_compat heol hok hd with h1 | h1
      · exact hdiag d h1
      · exact h1
  | Invalid b =>
    have hnn : ∀ k, (Character.Invalid b) ≠ Character.NewLine k := fun k h => by cases h
    have hok := eolArmed_prev_compat_of_not_newline hnn harm
    refine ⟨?_, ?_⟩
    · rcases checkChInvalid_prev cfg s with h | h
      · rw [show (check_ch cfg s (Character.Invalid b)).prev_newline =
            (checkChInvalid cfg s).prev_newline from rfl, h]
        exact eolArmed_none_tail hnn harm
      · rw [show (check_ch cfg s (Character.Invalid b)).prev_newline =
            (checkChInvalid cfg s).prev_newline from rfl, h]
        exact eolArmed_keep_tail hnn harm
    · intro d hd
      rcases checkChInvalid_diag_of_compat heol hok hd with h1 | h1
      · exact hdiag d h1
      · exact h1
  | Bom =>
    have hnn : ∀ k, Character.Bom ≠ Character.NewLine k := fun k h => by cases h
    have hok := eolArmed_prev_compat_of_not_newline hnn harm
    refine ⟨?_, ?_⟩
    · rcases checkChInvalid_prev cfg s with h | h
      · rw [show (check_ch cfg s Character.Bom).prev_newline =
            (checkChInvalid cfg s).prev_newline from rfl, h]
        exact eolArmed_none_tail hnn harm
      · rw [show (check_ch cfg s Character.Bom).prev_newline =
            (checkChInvalid cfg s).prev_newline from rfl, h]
        exact eolArmed_keep_tail hnn harm
    · intro d hd
      rcases checkChInvalid_diag_of_compat heol hok
          (show d ∈ (checkChInvalid cfg s).diagnosis from hd) with h1 | h1
      · exact hdiag d h1
      · exact h1
  | NewLine nl =>
    have hred : check_ch cfg s (Character.NewLine nl) = checkChNewLine cfg s nl := rfl
    rw [hred]
    have hAd : ∀ y ∈ (checkChNewLineA cfg s).diagnosis,
        y.reason ≠ Reason.EndOfLineMismatch := by
      intro y hy
      rcases checkChNewLineA_diag_no_eol hy with h1 | h1
      · exact hdiag y h1
      · exact h1
    unfold checkChNewLine
    cases eol with
    | Lf =>
      obtain ⟨h1, h2⟩ := harm
      cases nl with
      | Cr => exact absurd h2 (by simp [eolTerminatorsOk])
      | Lf =>
        have hts : eolTerminatorsOk LineEnding.Lf ts = true := by
          simpa [eolTerminatorsOk] using h2
        rcases hp : s.prev_newline with _ | k
        · dsimp only
          refine ⟨?_, fun d hd => hAd d (by simpa using hd)⟩
          exact ⟨by simp, hts⟩
        · cases k with
          | Cr => exact absurd hp h1
          | Lf =>
            dsimp only
            rw [heol, if_neg (by simp)]
            refine ⟨?_, fun d hd => hAd d (by simpa using hd)⟩
            exact ⟨by simp, hts⟩
    | Cr =>
      obtain ⟨h1, h2⟩ := harm
      cases nl with
      | Lf => exact absurd h2 (by simp [eolTerminatorsOk])
      | Cr =>
        have hts : eolTerminatorsOk LineEnding.Cr ts = true := by
          simpa [eolTerminatorsOk] using h2
        rcases hp : s.prev_newline with _ | k
        · dsimp only
          refine ⟨?_, fun d hd => hAd d (by simpa using hd)⟩
          exact ⟨by simp, hts⟩
        · cases k with
          | Lf => exact absurd hp h1
          | Cr =>
            dsimp only
            rw [heol, if_neg (by simp)]
            refine ⟨?_, fun d hd => hAd d (by simpa using hd)⟩
            exact ⟨by simp, hts⟩
    | Crlf =>
      obtain ⟨h1, h2⟩ := harm
      cases nl with
      | Cr =>
        rcases hp : s.prev_newline with _ | k
        · rw [hp] at h2
          obtain ⟨ts2, hts2, hok2⟩ := eolOk_crlf_cr_cons h2
          dsimp only
          refine ⟨?_, fun d hd => hAd d (by simpa using hd)⟩
          exact ⟨by simp, ts2, hts2, hok2⟩
        · cases k with
          | Lf => exact absurd hp h1
          | Cr =>
            rw [hp] at h2
            obtain ⟨ts2, hts2, _⟩ := h2
            exact absurd hts2 (by simp)
      | Lf =>
        rcases hp : s.prev_newline with _ | k
        · rw [hp] at h2
          exact absurd h2 (by simp [eolTerminatorsOk])
        · cases k with
          | Lf => exact absurd hp h1
          | Cr =>
            rw [hp] at h2
            obtain ⟨ts2, hts2, hok2⟩ := h2
            have hts : ts2 = ts := by
              have := (List.cons.injEq _ _ _ _).mp hts2.symm
              exact this.2
            subst hts
            dsimp only
            rw [heol, if_neg (by simp)]
            refine ⟨?_, fun d hd => hAd d (by simpa using hd)⟩
            exact ⟨by simp, hok2⟩

theorem foldl_eol_no_mismatch {cfg : Config} {eol : LineEnding}
    (heol : cfg.end_of_line = some eol) :
    ∀ (ts : List Character) (s : CheckState),
      eolArmed eol s.prev_newline ts →
      (∀ d ∈ s.diagnosis, d.reason ≠ Reason.EndOfLineMismatch) →
      ∀ d ∈ (ts.foldl (check_ch cfg) s).diagnosis, d.reason ≠ Reason.EndOfLineMismatch := by
  intro ts
  induction ts with
  | nil => intro s _ hdiag d hd; exact hdiag d hd
  | cons c ts ih =>
    intro s harm hdiag
    have hstep := check_ch_eol_step heol harm hdiag
    exact ih (check_ch cfg s c) hstep.1 hstep.2

theorem eolArmed_of_ok {eol : LineEnding} {ts : List Character}
    (h : eolTerminatorsOk eol ts = true) : eolArmed eol none ts := by
  cases eol with
  | Lf => exact ⟨by simp, h⟩
  | Crlf => exact ⟨by simp, h⟩
  | Cr => exact ⟨by simp, h⟩

theorem checkTokens_eol_no_mismatch {cfg : Config} {eol : LineEnding}
    (heol : cfg.end_of_line = some eol) {toks : List Character}
    (hok : eolTerminatorsOk eol toks = true) :
    ∀ d ∈ checkTokens cfg toks, d.reason ≠ Reason.EndOfLineMismatch := by
  have hinit : ∀ x : Diagnosis, x ∈ initState.diagnosis →
      x.reason ≠ Reason.EndOfLineMismatch := by
    intro x hx
    exact absurd hx (List.not_mem_nil x)
  have hpush : ∀ x : Diagnosis,
      x ∈ (push_diagnosis initState ⟨1, (0, 0), Reason.BomNotFound⟩).diagnosis →
      x.reason ≠ Reason.EndOfLineMismatch := by
    intro x hx
    rcases mem_push_diagnosis hx with h1 | h1
    · exact absurd h1 (List.not_mem_nil x)
    · subst h1; simp
  intro d hd
  unfold checkTokens at hd
  rcases hcs : cfg.charset with _ | cs
  · rw [hcs] at hd
    dsimp only at hd
    exact foldl_eol_no_mismatch heol toks initState (eolArmed_of_ok hok) hinit d hd
  · cases cs <;> rw [hcs] at hd <;> dsimp only at hd
    case Latin1 =>
      exact foldl_eol_no_mismatch heol toks initState (eolArmed_of_ok hok) hinit d hd
    case Utf8 =>
      exact foldl_eol_no_mismatch heol toks initState (eolArmed_of_ok hok) hinit d hd
    case Utf8WithBom =>
      match toks, hok, hd with
      | [], _, hd =>
        exact hpush d hd
      | Character.Bom :: rest, hok, hd =>
        have hok2 : eolTerminatorsOk eol rest = true :=
          eolTerminatorsOk_cons_skip (fun k h => by cases h) hok
        exact foldl_eol_no_mismatch heol rest initState (eolArmed_of_ok hok2) hinit d hd
      | Character.NewLine nl :: rest, hok, hd =>
        exact foldl_eol_no_mismatch heol (Character.NewLine nl :: rest) _
          (eolArmed_of_ok hok) hpush d hd
      | Character.Indent i :: rest, hok, hd =>
        exact foldl_eol_no_mismatch heol (Character.Indent i :: rest) _
          (eolArmed_of_ok hok) hpush d hd
      | Character.Invalid b :: rest, hok, hd =>
        exact foldl_eol_no_mismatch heol (Character.Invalid b :: rest) _
          (eolArmed_of_ok hok) hpush d hd
      | Character.Valid b :: rest, hok, hd =>
        exact foldl_eol_no_mismatch heol (Character.Valid b :: rest) _
          (eolArmed_of_ok hok) hpush d hd
    case Utf16BigEndian =>
      match toks, hok, hd with
      | [], _, hd => exact hinit d hd
      | Character.Bom :: rest, hok, hd =>
        have hok2 : eolTerminatorsOk eol rest = true :=
          eolTerminatorsOk_cons_skip (fun k h => by cases h) hok
        exact foldl_eol_no_mismatch heol rest initState (eolArmed_of_ok hok2) hinit d hd
      | Character.NewLine nl :: rest, hok, hd =>
        exact foldl_eol_no_mismatch heol (Character.NewLine nl :: rest) _
          (eolArmed_of_ok hok) hinit d hd
      | Character.Indent i :: rest, hok, hd =>
        exact foldl_eol_no_mismatch heol (Character.Indent i :: rest) _
          (eolArmed_of_ok hok) hinit d hd
      | Character.Invalid b :: rest, hok, hd =>
        exact foldl_eol_no_mismatch heol (Character.Invalid b :: rest) _
          (eolArmed_of_ok hok) hinit d hd
      | Character.Valid b :: rest, hok, hd =>
        exact foldl_eol_no_mismatch heol (Character.Valid b :: rest) _
          (eolArmed_of_ok hok) hinit d hd
    case Utf16LittleEndian =>
      match toks, hok, hd with
      | [], _, hd => exact hinit d hd
      | Character.Bom :: rest, hok, hd =>
        have hok2 : eolTerminatorsOk eol rest = true :=
          eolTerminatorsOk_cons_skip (fun k h => by cases h) hok
        exact foldl_eol_no_mismatch heol rest initState (eolArmed_of_ok hok2) hinit d hd
      | Character.NewLine nl :: rest, hok, hd =>
        exact foldl_eol_no_mismatch heol (Character.NewLine nl :: rest) _
          (eolArmed_of_ok hok) hinit d hd
      | Character.Indent i :: rest, hok, hd =>
        exact foldl_eol_no_mismatch heol (Character.Indent i :: rest) _
          (eolArmed_of_ok hok) hinit d hd
      | Character.Invalid b :: rest, hok, hd =>
        exact foldl_eol_no_mismatch heol (Character.Invalid b :: rest) _
          (eolArmed_of_ok hok) hinit d hd
      | Character.Valid b :: rest, hok, hd =>
        exact foldl_eol_no_mismatch heol (Character.Valid b :: rest) _
          (eolArmed_of_ok hok) hinit d hd

/-- C8.  With `end_of_line` configured, an input all of whose line
terminators (as tokenized by the configured charset's reader) are exactly
the configured sequence — under `lf` no `Cr` token, under `cr` no `Lf`
token, under `crlf` newline tokens only as adjacent `Cr`-`Lf` pairs —
produces no `EndOfLineMismatch` diagnosis. -/
theorem check_eol_conforming_no_mismatch :
    ∀ (input : List Nat) (cfg : Config) (eol : LineEnding) (ds : List Diagnosis),
      cfg.end_of_line = some eol →
      eolTerminatorsOk eol (tokenize cfg.charset input) = true →
      check input cfg = some ds →
      ∀ d ∈ ds, d.reason ≠ Reason.EndOfLineMismatch := by
  intro input cfg eol ds heol hok h d hd
  unfold check at h
  rcases hcs : cfg.charset with _ | cs
  · rw [hcs] at hok h
    cases h
    exact checkTokens_eol_no_mismatch heol hok d hd
  · cases cs <;> rw [hcs] at hok h <;> cases h <;>
      exact checkTokens_eol_no_mismatch heol hok d hd

/-- C8 witness: a conforming LF-terminated input with trailing whitespace
produces a diagnosis, which is indeed not `EndOfLineMismatch`. -/
theorem check_eol_conforming_no_mismatch_witness :
    (⟨1, (2, 3), Reason.TrailingWhiteSpaces⟩ : Diagnosis).reason ≠
      Reason.EndOfLineMismatch :=
  check_eol_conforming_no_mismatch [0x78, 0x20, 0x0A] cfgLfTrim LineEnding.Lf
    [⟨1, (2, 3), Reason.TrailingWhiteSpaces⟩] rfl (by decide) (by decide)
    ⟨1, (2, 3), Reason.TrailingWhiteSpaces⟩ (by decide)

theorem reasonLines_append_out {p : Reason → Bool} {d : Diagnosis}
    (hd : p d.reason = false) (ds : List Diagnosis) :
    reasonLines p (ds ++ [d]) = reasonLines p ds := by
  simp [reasonLines, List.filter_append, hd]

theorem reasonLines_append_in {p : Reason → Bool} {d : Diagnosis}
    (hd : p d.reason = true) (ds : List Diagnosis) :
    reasonLines p (ds ++ [d]) = reasonLines p ds ++ [d.line] := by
  simp [reasonLines, List.filter_append, hd]

theorem pairwise_lt_append_singleton {xs : List Nat} {a : Nat} :
    (xs ++ [a]).Pairwise (· < ·) ↔ xs.Pairwise (· < ·) ∧ ∀ x ∈ xs, x < a := by
  rw [List.pairwise_append]
  simp

theorem check_end_of_newline_diag_cases (cfg : Config) (s : CheckState) :
    (check_end_of_newline cfg s).diagnosis = s.diagnosis ∨
      (check_end_of_newline cfg s).diagnosis =
        s.diagnosis ++ [⟨s.line, (s.col - 1, s.col), Reason.EndOfLineMismatch⟩] := by
  unfold check_end_of_newline
  cases s.prev_newline with
  | none => exact Or.inl rfl
  | some k =>
    dsimp only
    split
    · exact Or.inr rfl
    · exact Or.inl rfl

theorem check_end_of_newline_line_of_prev_some {s : CheckState} {k : NewLineChar}
    (hp : s.prev_newline = some k) (cfg : Config) :
    (check_end_of_newline cfg s).line = s.line + 1 := by
  unfold check_end_of_newline
  rw [hp]
  dsimp only
  split <;> rfl

theorem check_end_of_indent_diag_cases (cfg : Config) (s : CheckState) (len : Nat)
    (se : Bool) :
    (check_end_of_indent cfg s len se).diagnosis = s.diagnosis ∨
      (se = true ∧ (check_end_of_indent cfg s len se).diagnosis =
        s.diagnosis ++ [⟨s.line, (s.col - len, s.col), Reason.IndentStyle⟩]) ∨
      (se = false ∧ 0 < len ∧ (check_end_of_indent cfg s len se).diagnosis =
        s.diagnosis ++ [⟨s.line, (s.col - len, s.col), Reason.IndentSizeMismatch len⟩]) := by
  unfold check_end_of_indent
  cases se with
  | true => exact Or.inr (Or.inl ⟨rfl, rfl⟩)
  | false =>
    rw [if_neg (by simp)]
    cases cfg.indent_size with
    | none => exact Or.inl rfl
    | some size =>
      dsimp only
      split
      · rename_i hmod
        refine Or.inr (Or.inr ⟨rfl, ?_, rfl⟩)
        rcases Nat.eq_zero_or_pos len with h0 | h0
        · subst h0
          exact absurd (Nat.zero_mod size) hmod
        · exact h0
      · exact Or.inl rfl

theorem checkChNewLineA_diag_cases (cfg : Config) (s : CheckState) :
    (checkChNewLineA cfg s).diagnosis = s.diagnosis ∨
      (∃ len2, (checkChNewLineA cfg s).diagnosis =
        s.diagnosis ++ [⟨s.line, (s.col - len2, s.col), Reason.TrailingWhiteSpaces⟩]) ∨
      (∃ len, s.state = State.Indent len true ∧
        ((checkChNewLineA cfg s).diagnosis =
            s.diagnosis ++ [⟨s.line, (s.col - len, s.col), Reason.IndentStyle⟩] ∨
          (checkChNewLineA cfg s).diagnosis =
            s.diagnosis ++ [⟨s.line, (s.col - len, s.col), Reason.IndentStyle⟩] ++
              [⟨s.line, (s.col - len, s.col), Reason.TrailingWhiteSpaces⟩])) := by
  unfold checkChNewLineA
  cases hs : s.state with
  | NonWhitespace => exact Or.inl rfl
  | NonIndentWhitespace len =>
    dsimp only
    split
    · exact Or.inr (Or.inl ⟨len, rfl⟩)
    · exact Or.inl rfl
  | Indent len se =>
    cases se with
    | false =>
      dsimp only
      split
      · exact Or.inr (Or.inl ⟨len, rfl⟩)
      · exact Or.inl rfl
    | true =>
      dsimp only
      split
      · exact Or.inr (Or.inr ⟨len, rfl, Or.inr (by simp [push_diagnosis])⟩)
      · exact Or.inr (Or.inr ⟨len, rfl, Or.inl rfl⟩)

theorem checkChNewLine_diag_cases (cfg : Config) (s : CheckState) (nl : NewLineChar) :
    (checkChNewLine cfg s nl).diagnosis = (checkChNewLineA cfg s).diagnosis ∨
      (checkChNewLine cfg s nl).diagnosis = (checkChNewLineA cfg s).diagnosis ++
        [⟨s.line, (s.col - 1, s.col), Reason.EndOfLineMismatch⟩] := by
  unfold checkChNewLine
  rcases hp : s.prev_newline with _ | k
  · cases nl <;> exact Or.inl rfl
  · cases nl <;> cases k <;> dsimp only
    · split
      · exact Or.inr (by simp)
      · exact Or.inl (by simp)
    · exact Or.inr (by simp)
    · split
      · exact Or.inr (by simp)
      · exact Or.inl (by simp)
    · split
      · exact Or.inr (by simp)
      · exact Or.inl (by simp)

theorem checkChNewLine_state (cfg : Config) (s : CheckState) (nl : NewLineChar) :
    (checkChNewLine cfg s nl).state = State.Indent 0 false := by
  unfold checkChNewLine
  rcases hp : s.prev_newline with _ | k
  · cases nl <;> exact checkChNewLineA_state cfg s
  · cases nl <;> cases k <;> dsimp only <;>
      first
        | (split
           · simp [checkChNewLineA_state]
           · simp [checkChNewLineA_state])
        | simp [checkChNewLineA_state]

theorem checkChNewLine_line_prev (cfg : Config) (s : CheckState) (nl : NewLineChar) :
    ((∃ k, (checkChNewLine cfg s nl).prev_newline = some k) ∧
        (checkChNewLine cfg s nl).line = s.line) ∨
      (checkChNewLine cfg s nl).line = s.line + 1 := by
  unfold checkChNewLine
  rcases hp : s.prev_newline with _ | k
  · cases nl <;>
      exact Or.inl ⟨⟨_, rfl⟩, by simp [checkChNewLineA_line]⟩
  · cases nl <;> cases k <;> dsimp only <;>
      first
        | (split <;> right <;> simp [checkChNewLineA_line])
        | (right; simp [checkChNewLineA_line])

theorem stateBound_le {s : CheckState} {l : Nat} (h : stateBound s l) : l ≤ s.line := by
  unfold stateBound at h
  split at h
  · exact Nat.le_of_lt h
  · exact h

theorem stateBound_of_le_of_state {t : CheckState} {l : Nat} (hl : l ≤ t.line)
    (hst : ∀ len se, t.state ≠ State.Indent len se) : stateBound t l := by
  unfold stateBound
  cases hs : t.state with
  | Indent len se => exact absurd hs (hst len se)
  | NonWhitespace => exact hl
  | NonIndentWhitespace n => exact hl

theorem stateBound_of_lt {t : CheckState} {l : Nat} (hl : l < t.line) : stateBound t l := by
  unfold stateBound
  split
  · exact hl
  · exact Nat.le_of_lt hl

theorem stateBound_of_le_of_prev {t : CheckState} {l : Nat} (hl : l ≤ t.line) {k : NewLineChar}
    (hp : t.prev_newline = some k) : stateBound t l := by
  unfold stateBound
  rw [hp]
  cases hs : t.state with
  | Indent len se => exact hl
  | NonWhitespace => exact hl
  | NonIndentWhitespace n => exact hl

theorem indentInv_transfer {s t : CheckState} (h : indentInv s)
    (hkeep1 : reasonLines isIndentStyleReason t.diagnosis =
      reasonLines isIndentStyleReason s.diagnosis)
    (hkeep2 : reasonLines isIndentSizeReason t.diagnosis =
      reasonLines isIndentSizeReason s.diagnosis)
    (hbt : ∀ l, stateBound s l → stateBound t l)
    (hpn2 : ∀ len se, t.state = State.Indent len se → 0 < len → t.prev_newline = none)
    (hse2 : ∀ len, t.state = State.Indent len true → 0 < len) :
    indentInv t := by
  obtain ⟨hpw1, hpw2, hb1, hb2, _, _⟩ := h
  refine ⟨?_, ?_, ?_, ?_, hpn2, hse2⟩
  · rw [hkeep1]; exact hpw1
  · rw [hkeep2]; exact hpw2
  · intro l hl
    rw [hkeep1] at hl
    exact hbt l (hb1 l hl)
  · intro l hl
    rw [hkeep2] at hl
    exact hbt l (hb2 l hl)

theorem indentInv_add_one {s t : CheckState} {d : Diagnosis} (h : indentInv s)
    (hdiag : t.diagnosis = s.diagnosis ++ [d])
    (hstrict : ∀ l, stateBound s l → l < d.line)
    (hbt : ∀ l, stateBound s l → stateBound t l)
    (hbd : stateBound t d.line)
    (hpn2 : ∀ len se, t.state = State.Indent len se → 0 < len → t.prev_newline = none)
    (hse2 : ∀ len, t.state = State.Indent len true → 0 < len) :
    indentInv t := by
  obtain ⟨hpw1, hpw2, hb1, hb2, _, _⟩ := h
  refine ⟨?_, ?_, ?_, ?_, hpn2, hse2⟩
  · cases hr : isIndentStyleReason d.reason with
    | false => rw [hdiag, reasonLines_append_out hr]; exact hpw1
    | true =>
      rw [hdiag, reasonLines_append_in hr]
      exact pairwise_lt_append_singleton.mpr ⟨hpw1, fun x hx => hstrict x (hb1 x hx)⟩
  · cases hr : isIndentSizeReason d.reason with
    | false => rw [hdiag, reasonLines_append_out hr]; exact hpw2
    | true =>
      rw [hdiag, reasonLines_append_in hr]
      exact pairwise_lt_append_singleton.mpr ⟨hpw2, fun x hx => hstrict x (hb2 x hx)⟩
  · intro l hl
    rw [hdiag] at hl
    cases hr : isIndentStyleReason d.reason with
    | false =>
      rw [reasonLines_append_out hr] at hl
      exact hbt l (hb1 l hl)
    | true =>
      rw [reasonLines_append_in hr] at hl
      rcases List.mem_append.mp hl with h1 | h1
      · exact hbt l (hb1 l h1)
      · rcases List.mem_singleton.mp h1 with rfl
        exact hbd
  · intro l hl
    rw [hdiag] at hl
    cases hr : isIndentSizeReason d.reason with
    | false =>
      rw [reasonLines_append_out hr] at hl
      exact hbt l (hb2 l hl)
    | true =>
      rw [reasonLines_append_in hr] at hl
      rcases List.mem_append.mp hl with h1 | h1
      · exact hbt l (hb2 l h1)
      · rcases List.mem_singleton.mp h1 with rfl
        exact hbd

theorem checkChValid_state (cfg : Config) (s : CheckState) :
    (checkChValid cfg s).state = State.NonWhitespace := rfl

theorem checkChInvalid_state (cfg : Config) (s : CheckState) :
    (checkChInvalid cfg s).state = State.NonWhitespace := rfl

theorem checkChIndent_cases (cfg : Config) (s : CheckState) (i : IndentChar) :
    ((∃ l0, (checkChIndent cfg s i).state = State.NonIndentWhitespace l0) ∧
      (checkChIndent cfg s i).line = s.line ∧
      (checkChIndent cfg s i).diagnosis = s.diagnosis) ∨
    (∃ len se se2, s.state = State.Indent len se ∧
      (checkChIndent cfg s i).state = State.Indent (len + 1) se2 ∧
      (((s.prev_newline = none ∨ len ≠ 0) ∧
          (checkChIndent cfg s i).line = s.line ∧
          (checkChIndent cfg s i).diagnosis = s.diagnosis) ∨
        (len = 0 ∧ (∃ k, s.prev_newline = some k) ∧
          (checkChIndent cfg s i).line = s.line + 1 ∧
          ((checkChIndent cfg s i).diagnosis = s.diagnosis ∨
            (checkChIndent cfg s i).diagnosis =
              s.diagnosis ++ [⟨s.line, (s.col - 1, s.col), Reason.EndOfLineMismatch⟩])))) := by
  unfold checkChIndent
  cases hs : s.state with
  | NonWhitespace => exact Or.inl ⟨⟨1, rfl⟩, rfl, rfl⟩
  | NonIndentWhitespace l0 => exact Or.inl ⟨⟨l0, hs⟩, rfl, rfl⟩
  | Indent len se =>
    dsimp only
    by_cases hlen : len = 0
    · subst hlen
      rw [if_pos rfl]
      rcases hp : s.prev_newline with _ | k
      · rw [check_end_of_newline_of_prev_none cfg s hp]
        exact Or.inr ⟨0, se, _, rfl, rfl, Or.inl ⟨Or.inl rfl, rfl, rfl⟩⟩
      · exact Or.inr ⟨0, se, _, rfl, rfl, Or.inr ⟨rfl, ⟨k, rfl⟩,
          check_end_of_newline_line_of_prev_some hp cfg,
          check_end_of_newline_diag_cases cfg s⟩⟩
    · rw [if_neg hlen]
      exact Or.inr ⟨len, se, _, rfl, rfl, Or.inl ⟨Or.inr hlen, rfl, rfl⟩⟩

theorem checkChIndent_indentInv (cfg : Config) (i : IndentChar) {s : CheckState}
    (h : indentInv s) : indentInv (checkChIndent cfg s i) := by
  have hpn := h.2.2.2.2.1
  rcases checkChIndent_cases cfg s i with
    ⟨⟨l0, hst⟩, hline, hdiag⟩ | ⟨len, se, se2, hs, hst, hrest⟩
  · refine indentInv_transfer h (by rw [hdiag]) (by rw [hdiag]) ?_ ?_ ?_
    · intro l hl
      refine stateBound_of_le_of_state ?_ ?_
      · rw [hline]; exact stateBound_le hl
      · intro len2 se2 hcon
        rw [hst] at hcon
        cases hcon
    · intro len2 se2 hcon hpos
      exact checkChIndent_prev cfg s i
    · intro len2 hcon
      rw [hst] at hcon
      cases hcon
  · rcases hrest with ⟨hcase, hline, hdiag⟩ | ⟨hlen0, ⟨k, hp⟩, hline, hdiagcases⟩
    · have hpnone : s.prev_newline = none := by
        rcases hcase with h1 | h1
        · exact h1
        · exact hpn len se hs (Nat.pos_of_ne_zero h1)
      refine indentInv_transfer h (by rw [hdiag]) (by rw [hdiag]) ?_ ?_ ?_
      · intro l hl
        have hstrict : l < s.line := by
          unfold stateBound at hl
          rw [hs, hpnone] at hl
          exact hl
        refine stateBound_of_lt ?_
        rw [hline]
        exact hstrict
      · intro len2 se3 hcon hpos
        exact checkChIndent_prev cfg s i
      · intro len2 hcon
        rw [hst] at hcon
        injection hcon with ha hb
        omega
    · have hbt : ∀ l, stateBound s l → stateBound (checkChIndent cfg s i) l := by
        intro l hl
        refine stateBound_of_lt ?_
        rw [hline]
        exact Nat.lt_succ_of_le (stateBound_le hl)
      have hpn2 : ∀ len2 se3, (checkChIndent cfg s i).state = State.Indent len2 se3 →
          0 < len2 → (checkChIndent cfg s i).prev_newline = none := by
        intro _ _ _ _
        exact checkChIndent_prev cfg s i
      have hse2 : ∀ len2, (checkChIndent cfg s i).state = State.Indent len2 true →
          0 < len2 := by
        intro len2 hcon
        rw [hst] at hcon
        injection hcon with ha hb
        omega
      rcases hdiagcases with hdiag | hdiag
      · exact indentInv_transfer h (by rw [hdiag]) (by rw [hdiag]) hbt hpn2 hse2
      · have hk1 : reasonLines isIndentStyleReason (checkChIndent cfg s i).diagnosis =
            reasonLines isIndentStyleReason s.diagnosis := by
          rw [hdiag]
          exact reasonLines_append_out rfl _
        have hk2 : reasonLines isIndentSizeReason (checkChIndent cfg s i).diagnosis =
            reasonLines isIndentSizeReason s.diagnosis := by
          rw [hdiag]
          exact reasonLines_append_out rfl _
        exact indentInv_transfer h hk1 hk2 hbt hpn2 hse2

theorem check_end_of_indent_line (cfg : Config) (s : CheckState) (len : Nat) (se : Bool) :
    (check_end_of_indent cfg s len se).line = s.line := by
  unfold check_end_of_indent
  split
  · rfl
  · split
    · split <;> rfl
    · rfl

theorem checkChValid_cases (cfg : Config) {s : CheckState}
    (hpn : ∀ len se, s.state = State.Indent len se → 0 < len → s.prev_newline = none)
    (hse : ∀ len, s.state = State.Indent len true → 0 < len) :
    ((checkChValid cfg s).line = s.line ∧
      (checkChValid cfg s).diagnosis = s.diagnosis) ∨
    ((checkChValid cfg s).line = s.line + 1 ∧
      ((checkChValid cfg s).diagnosis = s.diagnosis ∨
        (checkChValid cfg s).diagnosis = s.diagnosis ++
          [⟨s.line, (s.col - 1, s.col), Reason.EndOfLineMismatch⟩])) ∨
    (s.prev_newline = none ∧ (∃ len se2, s.state = State.Indent len se2) ∧
      (checkChValid cfg s).line = s.line ∧
      ∃ b r, (checkChValid cfg s).diagnosis =
        s.diagnosis ++ [⟨s.line, (s.col - b, s.col), r⟩]) := by
  unfold checkChValid
  cases hs : s.state with
  | NonWhitespace => exact Or.inl ⟨rfl, rfl⟩
  | NonIndentWhitespace l0 => exact Or.inl ⟨rfl, rfl⟩
  | Indent len se =>
    dsimp only
    rcases hp : s.prev_newline with _ | k
    · rw [check_end_of_newline_of_prev_none cfg s hp]
      rcases check_end_of_indent_diag_cases cfg s len se with h1 | ⟨hset, h1⟩ | ⟨hsef, hlen, h1⟩
      · exact Or.inl ⟨check_end_of_indent_line cfg s len se, h1⟩
      · exact Or.inr (Or.inr ⟨rfl, ⟨len, se, rfl⟩,
          check_end_of_indent_line cfg s len se, len, Reason.IndentStyle, h1⟩)
      · exact Or.inr (Or.inr ⟨rfl, ⟨len, se, rfl⟩,
          check_end_of_indent_line cfg s len se, len, Reason.IndentSizeMismatch len, h1⟩)
    · have hlen : len = 0 := by
        by_contra hne
        rw [hpn len se hs (Nat.pos_of_ne_zero hne)] at hp
        cases hp
      subst hlen
      have hsef : se = false := by
        cases se with
        | false => rfl
        | true => exact absurd (hse 0 hs) (by omega)
      subst hsef
      have hline2 := check_end_of_newline_line_of_prev_some hp cfg
      rcases check_end_of_indent_diag_cases cfg (check_end_of_newline cfg s) 0 false with
        h1 | ⟨hset, _⟩ | ⟨_, hlen0, _⟩
      · refine Or.inr (Or.inl ⟨?_, ?_⟩)
        · rw [check_end_of_indent_line, hline2]
        · rw [h1]
          exact check_end_of_newline_diag_cases cfg s
      · cases hset
      · exact absurd hlen0 (by omega)

theorem checkChValid_indentInv (cfg : Config) {s : CheckState} (h : indentInv s) :
    indentInv (checkChValid cfg s) := by
  have hstate := checkChValid_state cfg s
  have hnind : ∀ len se, (checkChValid cfg s).state ≠ State.Indent len se := by
    intro len se hcon
    rw [hstate] at hcon
    cases hcon
  have hpn2 : ∀ len se, (checkChValid cfg s).state = State.Indent len se → 0 < len →
      (checkChValid cfg s).prev_newline = none := by
    intro len se hcon _
    exact absurd hcon (hnind len se)
  have hse2 : ∀ len, (checkChValid cfg s).state = State.Indent len true → 0 < len := by
    intro len hcon
    exact absurd hcon (hnind len true)
  rcases checkChValid_cases cfg h.2.2.2.2.1 h.2.2.2.2.2 with
    ⟨hline, hdiag⟩ | ⟨hline, hdiag | hdiag⟩ | ⟨hpnone, ⟨len, se, hs⟩, hline, b, r, hdiag⟩
  · refine indentInv_transfer h (by rw [hdiag]) (by rw [hdiag]) ?_ hpn2 hse2
    intro l hl
    refine stateBound_of_le_of_state ?_ hnind
    rw [hline]
    exact stateBound_le hl
  · refine indentInv_transfer h (by rw [hdiag]) (by rw [hdiag]) ?_ hpn2 hse2
    intro l hl
    refine stateBound_of_le_of_state ?_ hnind
    rw [hline]
    exact Nat.le_succ_of_le (stateBound_le hl)
  · refine indentInv_transfer h
      (by rw [hdiag]; exact reasonLines_append_out rfl _)
      (by rw [hdiag]; exact reasonLines_append_out rfl _) ?_ hpn2 hse2
    intro l hl
    refine stateBound_of_le_of_state ?_ hnind
    rw [hline]
    exact Nat.le_succ_of_le (stateBound_le hl)
  · refine indentInv_add_one h hdiag ?_ ?_ ?_ hpn2 hse2
    · intro l hl
      unfold stateBound at hl
      rw [hs, hpnone] at hl
      exact hl
    · intro l hl
      refine stateBound_of_le_of_state ?_ hnind
      rw [hline]
      exact stateBound_le hl
    · refine stateBound_of_le_of_state ?_ hnind
      rw [hline]

theorem stateBound_congr {t1 t2 : CheckState} (hs : t1.state = t2.state)
    (hp : t1.prev_newline = t2.prev_newline) (hl : t1.line = t2.line) {l : Nat}
    (h : stateBound t1 l) : stateBound t2 l := by
  unfold stateBound at h ⊢
  rw [← hs, ← hp, ← hl]
  exact h

theorem checkChInvalid_rel (cfg : Config) (s : CheckState) :
    (∃ L C, (checkChInvalid cfg s).diagnosis =
      (checkChValid cfg s).diagnosis ++ [⟨L, (C - 1, C), Reason.InvalidCharacter⟩]) ∧
    (checkChInvalid cfg s).line = (checkChValid cfg s).line ∧
    (checkChInvalid cfg s).state = (checkChValid cfg s).state ∧
    (checkChInvalid cfg s).prev_newline = (checkChValid cfg s).prev_newline := by
  unfold checkChInvalid checkChValid
  cases hs : s.state with
  | NonWhitespace => exact ⟨⟨s.line, s.col, rfl⟩, rfl, rfl, rfl⟩
  | NonIndentWhitespace l0 => exact ⟨⟨s.line, s.col, rfl⟩, rfl, rfl, rfl⟩
  | Indent len se => exact ⟨⟨_, _, rfl⟩, rfl, rfl, rfl⟩

theorem checkChInvalid_indentInv (cfg : Config) {s : CheckState} (h : indentInv s) :
    indentInv (checkChInvalid cfg s) := by
  have hv := checkChValid_indentInv cfg h
  obtain ⟨⟨L, C, hdiag⟩, hline, hstate, hprev⟩ := checkChInvalid_rel cfg s
  refine indentInv_transfer hv
    (by rw [hdiag]; exact reasonLines_append_out rfl _)
    (by rw [hdiag]; exact reasonLines_append_out rfl _)
    (fun l hl => stateBound_congr hstate.symm hprev.symm hline.symm hl) ?_ ?_
  · intro len se hcon hpos
    rw [hstate, checkChValid_state] at hcon
    cases hcon
  · intro len hcon
    rw [hstate, checkChValid_state] at hcon
    cases hcon

theorem indentInv_add_lines {s t : CheckState} {L : Nat} (h : indentInv s)
    (hk1 : reasonLines isIndentStyleReason t.diagnosis =
      reasonLines isIndentStyleReason s.diagnosis ++ [L])
    (hk2 : reasonLines isIndentSizeReason t.diagnosis =
      reasonLines isIndentSizeReason s.diagnosis)
    (hstrict : ∀ l, stateBound s l → l < L)
    (hbt : ∀ l, stateBound s l → stateBound t l)
    (hbL : stateBound t L)
    (hpn2 : ∀ len se, t.state = State.Indent len se → 0 < len → t.prev_newline = none)
    (hse2 : ∀ len, t.state = State.Indent len true → 0 < len) :
    indentInv t := by
  obtain ⟨hpw1, hpw2, hb1, hb2, _, _⟩ := h
  refine ⟨?_, ?_, ?_, ?_, hpn2, hse2⟩
  · rw [hk1]
    exact pairwise_lt_append_singleton.mpr ⟨hpw1, fun x hx => hstrict x (hb1 x hx)⟩
  · rw [hk2]
    exact hpw2
  · intro l hl
    rw [hk1] at hl
    rcases List.mem_append.mp hl with h1 | h1
    · exact hbt l (hb1 l h1)
    · rcases List.mem_singleton.mp h1 with rfl
      exact hbL
  · intro l hl
    rw [hk2] at hl
    exact hbt l (hb2 l hl)

theorem checkChNewLine_indentInv (cfg : Config) (nl : NewLineChar) {s : CheckState}
    (h : indentInv s) : indentInv (checkChNewLine cfg s nl) := by
  have hstate := checkChNewLine_state cfg s nl
  have hpn2 : ∀ len se, (checkChNewLine cfg s nl).state = State.Indent len se →
      0 < len → (checkChNewLine cfg s nl).prev_newline = none := by
    intro len se hcon hpos
    rw [hstate] at hcon
    injection hcon with h1 h2
    exact absurd hpos (by omega)
  have hse2 : ∀ len, (checkChNewLine cfg s nl).state = State.Indent len true → 0 < len := by
    intro len hcon
    rw [hstate] at hcon
    injection hcon with h1 h2
    cases h2
  have hbt : ∀ l, stateBound s l → stateBound (checkChNewLine cfg s nl) l := by
    intro l hl
    rcases checkChNewLine_line_prev cfg s nl with ⟨⟨k, hpk⟩, hline⟩ | hline
    · refine stateBound_of_le_of_prev ?_ hpk
      rw [hline]
      exact stateBound_le hl
    · refine stateBound_of_lt ?_
      rw [hline]
      exact Nat.lt_succ_of_le (stateBound_le hl)
  have hbL : stateBound (checkChNewLine cfg s nl) s.line := by
    rcases checkChNewLine_line_prev cfg s nl with ⟨⟨k, hpk⟩, hline⟩ | hline
    · refine stateBound_of_le_of_prev ?_ hpk
      rw [hline]
    · refine stateBound_of_lt ?_
      rw [hline]
      omega
  rcases checkChNewLine_diag_cases cfg s nl with ht | ht <;>
    rcases checkChNewLineA_diag_cases cfg s with hA | ⟨len2, hA⟩ | ⟨len, hsIndent, hA | hA⟩
  · exact indentInv_transfer h (by rw [ht, hA]) (by rw [ht, hA]) hbt hpn2 hse2
  · refine indentInv_transfer h ?_ ?_ hbt hpn2 hse2 <;>
      (rw [ht, hA]; exact reasonLines_append_out rfl _)
  · have hstrict : ∀ l, stateBound s l → l < s.line := by
      intro l hl
      have h0 : 0 < len := h.2.2.2.2.2 len hsIndent
      have hpv : s.prev_newline = none := h.2.2.2.2.1 len true hsIndent h0
      unfold stateBound at hl
      rw [hsIndent, hpv] at hl
      exact hl
    refine indentInv_add_lines h ?_ ?_ hstrict hbt hbL hpn2 hse2
    · rw [ht, hA]
      exact reasonLines_append_in rfl _
    · rw [ht, hA]
      exact reasonLines_append_out rfl _
  · have hstrict : ∀ l, stateBound s l → l < s.line := by
      intro l hl
      have h0 : 0 < len := h.2.2.2.2.2 len hsIndent
      have hpv : s.prev_newline = none := h.2.2.2.2.1 len true hsIndent h0
      unfold stateBound at hl
      rw [hsIndent, hpv] at hl
      exact hl
    refine indentInv_add_lines h ?_ ?_ hstrict hbt hbL hpn2 hse2
    · rw [ht, hA, reasonLines_append_out rfl, reasonLines_append_in rfl]
    · rw [ht, hA, reasonLines_append_out rfl, reasonLines_append_out rfl]
  · refine indentInv_transfer h ?_ ?_ hbt hpn2 hse2 <;>
      (rw [ht, hA]; exact reasonLines_append_out rfl _)
  · refine indentInv_transfer h ?_ ?_ hbt hpn2 hse2 <;>
      (rw [ht, hA, reasonLines_append_out rfl, reasonLines_append_out rfl])
  · have hstrict : ∀ l, stateBound s l → l < s.line := by
      intro l hl
      have h0 : 0 < len := h.2.2.2.2.2 len hsIndent
      have hpv : s.prev_newline = none := h.2.2.2.2.1 len true hsIndent h0
      unfold stateBound at hl
      rw [hsIndent, hpv] at hl
      exact hl
    refine indentInv_add_lines h ?_ ?_ hstrict hbt hbL hpn2 hse2
    · rw [ht, hA, reasonLines_append_out rfl, reasonLines_append_in rfl]
    · rw [ht, hA, reasonLines_append_out rfl, reasonLines_append_out rfl]
  · have hstrict : ∀ l, stateBound s l → l < s.line := by
      intro l hl
      have h0 : 0 < len := h.2.2.2.2.2 len hsIndent
      have hpv : s.prev_newline = none := h.2.2.2.2.1 len true hsIndent h0
      unfold stateBound at hl
      rw [hsIndent, hpv] at hl
      exact hl
    refine indentInv_add_lines h ?_ ?_ hstrict hbt hbL hpn2 hse2
    · rw [ht, hA, reasonLines_append_out rfl, reasonLines_append_out rfl,
        reasonLines_append_in rfl]
    · rw [ht, hA, reasonLines_append_out rfl, reasonLines_append_out rfl,
        reasonLines_append_out rfl]

theorem check_ch_indentInv (cfg : Config) (c : Character) {s : CheckState}
    (h : indentInv s) : indentInv (check_ch cfg s c) := by
  cases c with
  | Indent i => exact checkChIndent_indentInv cfg i h
  | NewLine nl => exact checkChNewLine_indentInv cfg nl h
  | Valid b => exact checkChValid_indentInv cfg h
  | Invalid b => exact checkChInvalid_indentInv cfg h
  | Bom => exact checkChInvalid_indentInv cfg h

theorem foldl_indentInv (cfg : Config) :
    ∀ (ts : List Character) (s : CheckState), indentInv s →
      indentInv (ts.foldl (check_ch cfg) s) := by
  intro ts
  induction ts with
  | nil => intro s h; exact h
  | cons c ts ih =>
    intro s h
    exact ih _ (check_ch_indentInv cfg c h)

theorem initState_indentInv : indentInv initState := by
  refine ⟨?_, ?_, ?_, ?_, ?_, ?_⟩
  · simp [initState, reasonLines]
  · simp [initState, reasonLines]
  · intro l hl
    simp [initState, reasonLines] at hl
  · intro l hl
    simp [initState, reasonLines] at hl
  · intro len se hcon hpos
    rfl
  · intro len hcon
    injection hcon with h1 h2
    cases h2

theorem push_bnf_indentInv :
    indentInv (push_diagnosis initState ⟨1, (0, 0), Reason.BomNotFound⟩) := by
  refine indentInv_transfer initState_indentInv ?_ ?_ ?_ ?_ ?_
  · exact reasonLines_append_out rfl _
  · exact reasonLines_append_out rfl _
  · intro l hl
    exact hl
  · intro len se hcon hpos
    rfl
  · intro len hcon
    injection hcon with h1 h2
    cases h2

theorem checkTokens_indent_pairwise (cfg : Config) (toks : List Character) :
    (reasonLines isIndentStyleReason (checkTokens cfg toks)).Pairwise (· < ·) ∧
    (reasonLines isIndentSizeReason (checkTokens cfg toks)).Pairwise (· < ·) := by
  unfold checkTokens
  rcases hcs : cfg.charset with _ | cs
  · dsimp only
    have hinv := foldl_indentInv cfg toks initState initState_indentInv
    exact ⟨hinv.1, hinv.2.1⟩
  · cases cs <;> dsimp only
    case Latin1 =>
      have hinv := foldl_indentInv cfg toks initState initState_indentInv
      exact ⟨hinv.1, hinv.2.1⟩
    case Utf8 =>
      have hinv := foldl_indentInv cfg toks initState initState_indentInv
      exact ⟨hinv.1, hinv.2.1⟩
    case Utf8WithBom =>
      match toks with
      | [] =>
        exact ⟨push_bnf_indentInv.1, push_bnf_indentInv.2.1⟩
      | Character.Bom :: rest =>
        have hinv := foldl_indentInv cfg rest initState initState_indentInv
        exact ⟨hinv.1, hinv.2.1⟩
      | Character.NewLine nl :: rest =>
        have hinv := foldl_indentInv cfg (Character.NewLine nl :: rest) _ push_bnf_indentInv
        exact ⟨hinv.1, hinv.2.1⟩
      | Character.Indent i :: rest =>
        have hinv := foldl_indentInv cfg (Character.Indent i :: rest) _ push_bnf_indentInv
        exact ⟨hinv.1, hinv.2.1⟩
      | Character.Invalid b :: rest =>
        have hinv := foldl_indentInv cfg (Character.Invalid b :: rest) _ push_bnf_indentInv
        exact ⟨hinv.1, hinv.2.1⟩
      | Character.Valid b :: rest =>
        have hinv := foldl_indentInv cfg (Character.Valid b :: rest) _ push_bnf_indentInv
        exact ⟨hinv.1, hinv.2.1⟩
    case Utf16BigEndian =>
      match toks with
      | [] =>
        exact ⟨initState_indentInv.1, initState_indentInv.2.1⟩
      | Character.Bom :: rest =>
        have hinv := foldl_indentInv cfg rest initState initState_indentInv
        exact ⟨hinv.1, hinv.2.1⟩
      | Character.NewLine nl :: rest =>
        have hinv := foldl_indentInv cfg (Character.NewLine nl :: rest) _ initState_indentInv
        exact ⟨hinv.1, hinv.2.1⟩
      | Character.Indent i :: rest =>
        have hinv := foldl_indentInv cfg (Character.Indent i :: rest) _ initState_indentInv
        exact ⟨hinv.1, hinv.2.1⟩
      | Character.Invalid b :: rest =>
        have hinv := foldl_indentInv cfg (Character.Invalid b :: rest) _ initState_indentInv
        exact ⟨hinv.1, hinv.2.1⟩
      | Character.Valid b :: rest =>
        have hinv := foldl_indentInv cfg (Character.Valid b :: rest) _ initState_indentInv
        exact ⟨hinv.1, hinv.2.1⟩
    case Utf16LittleEndian =>
      match toks with
      | [] =>
        exact ⟨initState_indentInv.1, initState_indentInv.2.1⟩
      | Character.Bom :: rest =>
        have hinv := foldl_indentInv cfg rest initState initState_indentInv
        exact ⟨hinv.1, hinv.2.1⟩
      | Character.NewLine nl :: rest =>
        have hinv := foldl_indentInv cfg (Character.NewLine nl :: rest) _ initState_indentInv
        exact ⟨hinv.1, hinv.2.1⟩
      | Character.Indent i :: rest =>
        have hinv := foldl_indentInv cfg (Character.Indent i :: rest) _ initState_indentInv
        exact ⟨hinv.1, hinv.2.1⟩
      | Character.Invalid b :: rest =>
        have hinv := foldl_indentInv cfg (Character.Invalid b :: rest) _ initState_indentInv
        exact ⟨hinv.1, hinv.2.1⟩
      | Character.Valid b :: rest =>
        have hinv := foldl_indentInv cfg (Character.Valid b :: rest) _ initState_indentInv
        exact ⟨hinv.1, hinv.2.1⟩

/-- C9.  In the list returned by `check`, the line numbers of the
`IndentStyle` diagnoses are strictly increasing, and so are the line
numbers of the `IndentSizeMismatch` diagnoses.  Since an indent run is
the leading whitespace of a single line and every diagnosis an indent run
produces carries that line number, this means each indent run gives rise
to at most one `IndentStyle` and at most one `IndentSizeMismatch`
diagnosis. -/
theorem check_indent_run_at_most_one :
    ∀ (input : List Nat) (cfg : Config) (ds : List Diagnosis),
      check input cfg = some ds →
      (reasonLines isIndentStyleReason ds).Pairwise (· < ·) ∧
      (reasonLines isIndentSizeReason ds).Pairwise (· < ·) := by
  intro input cfg ds h
  unfold check at h
  rcases hcs : cfg.charset with _ | cs
  · rw [hcs] at h
    cases h
    exact checkTokens_indent_pairwise cfg _
  · cases cs <;> rw [hcs] at h <;> cases h <;> exact checkTokens_indent_pairwise cfg _

/-- C9 witness: a mixed-indent run yields one `IndentStyle` diagnosis, and
the line lists are strictly increasing. -/
theorem check_indent_run_at_most_one_witness :
    (reasonLines isIndentStyleReason [⟨1, (1, 3), Reason.IndentStyle⟩]).Pairwise (· < ·) ∧
    (reasonLines isIndentSizeReason [⟨1, (1, 3), Reason.IndentStyle⟩]).Pairwise (· < ·) :=
  check_indent_run_at_most_one [0x20, 0x09, 0x78, 0x0A] cfgSpace
    [⟨1, (1, 3), Reason.IndentStyle⟩] (by decide)

/-- C1.  The UTF-8 reader, applied to the well-formed two-byte sequence
`C3 A9` (U+00E9), returns `Invalid` carrying only the leading byte — not
`Valid` with both bytes as the claim states.  The source reads the
continuation bytes into `buf[1..n]` (a slice of length `n - 1`) but then
tests `len == n`, which can never hold, so the decode branch is dead and
every 2/3/4-byte sequence is reported `Invalid(buf[0..len])`. -/
theorem utf8Next_wellformed_two_byte_seq :
    utf8Next [0xC3, 0xA9] =
      some (Character.Invalid (CharByteArray.ofBytes [0xC3]), []) := by decide

/-- C2 counterexample.  On bytes `"a\r\nb\r\n"` with charset UTF-8 and
`end_of_line = lf`, `check` does not return the two claimed diagnoses
with column ranges `(2, 3)`. -/
theorem check_crlf_under_lf_claimed_ranges_false :
    check [0x61, 0x0D, 0x0A, 0x62, 0x0D, 0x0A] cfgUtf8Lf ≠
      some [⟨1, (2, 3), Reason.EndOfLineMismatch⟩,
            ⟨2, (2, 3), Reason.EndOfLineMismatch⟩] := by decide

/-- C2 amended.  On bytes `"a\r\nb\r\n"` with charset UTF-8 and
`end_of_line = lf`, `check` returns exactly two `EndOfLineMismatch`
diagnoses, at line 1 with column range `(1, 2)` and at line 2 with column
range `(1, 2)`: the range is `(col - 1, col)` and the newline tokens do
not advance `col`, so after the single character `a` the column is 2. -/
theorem check_crlf_under_lf :
    check [0x61, 0x0D, 0x0A, 0x62, 0x0D, 0x0A] cfgUtf8Lf =
      some [⟨1, (1, 2), Reason.EndOfLineMismatch⟩,
            ⟨2, (1, 2), Reason.EndOfLineMismatch⟩] := by decide

/-- C3.  With charset `latin1`, `check` never returns a diagnosis list at
all: `CharacterReader::new` is `todo!()` for `Charset::Latin1`, so the
call panics (modelled as `none`) before reading a single byte — the
implemented `Latin1Reader`, which would classify `0x7F` as invalid, is
unreachable from `check`. -/
theorem check_latin1_panics :
    check [0x41, 0x7F, 0x0A] cfgLatin1 = none := by decide

/-- The unplugged `Latin1Reader` itself would indeed classify byte `0x7F`
(inside the rejected band `0x7F..=0xA0`) as invalid. -/
theorem latin1Next_0x7F :
    latin1Next [0x7F, 0x0A] =
      some (Character.Invalid (CharByteArray.ofBytes [0x7F]), [0x0A]) := by decide

/-- C5.  The UTF-16 LE reader, applied to the plain (non-special,
non-BOM, non-surrogate) code unit `41 00`, returns `Valid` carrying only
the first byte read: the catch-all arm of the source is
`Valid(buf[0..1])`, not `Valid(buf[0..2])`, so the claimed two bytes are
not what the token carries. -/
theorem utf16leNext_plain_unit :
    utf16leNext [0x41, 0x00] =
      some (Character.Valid (CharByteArray.ofBytes [0x41]), []) := by decide

/-- C4 counterexample.  With charset `utf-8-bom` and empty input, `check`
returns a `BomNotFound` diagnosis whose column range is `(0, 0)`, so the
claimed lower bound `1 ≤ start` fails. -/
theorem check_bomNotFound_range_start_zero :
    check [] cfgUtf8Bom = some [⟨1, (0, 0), Reason.BomNotFound⟩] ∧ ¬ (1 ≤ 0) := by decide

/-- C6 counterexample.  On input `0x0A 0x0D` (LF then CR) with every
config option absent, `check` returns a non-empty list: the
`(Cr, Some(Lf))` arm of the newline resolution pushes `EndOfLineMismatch`
unconditionally, with no guard on `end_of_line`. -/
theorem check_emptyConfig_not_always_empty :
    check [0x0A, 0x0D] cfgEmpty = some [⟨1, (0, 1), Reason.EndOfLineMismatch⟩] ∧
    check [0x0A, 0x0D] cfgEmpty ≠ some [] := by decide

end EcLint
